import Mathlib

/-!
Verification of the league-injuries scraping core of `transfermarkt-api`
(`app/services/players/league_injuries.py`), shallowly embedded in Lean.

HTML documents are modelled as a rose tree of elements and text nodes.
Python strings are modelled as `String` (with character-list internals);
Python `None`-able strings as `Option String`; Python exceptions as
`Except`.  The two failures the module can raise are modelled by `Err`:
the "injuries table not found" failure (a `ValueError` in
`_get_injuries_table`, and the base-class guard `raise_exception_if_not_found`
in `__post_init__`; the specification names both `NotFoundError`) and the
`IndexError` a list subscript can raise.
-/

namespace TM

/-! ## Basic string utilities (modelled at the character-list level so that
everything reduces inside the kernel) -/

/-- Python `str.lower` restricted to ASCII (the only characters the
module ever lowercases in the properties verified here). -/
def pyLower (c : Char) : Char :=
  match c with
  | 'A' => 'a' | 'B' => 'b' | 'C' => 'c' | 'D' => 'd' | 'E' => 'e' | 'F' => 'f' | 'G' => 'g'
  | 'H' => 'h' | 'I' => 'i' | 'J' => 'j' | 'K' => 'k' | 'L' => 'l' | 'M' => 'm' | 'N' => 'n'
  | 'O' => 'o' | 'P' => 'p' | 'Q' => 'q' | 'R' => 'r' | 'S' => 's' | 'T' => 't' | 'U' => 'u'
  | 'V' => 'v' | 'W' => 'w' | 'X' => 'x' | 'Y' => 'y' | 'Z' => 'z'
  | c => c

/-- Whitespace as Python `str.strip` / regex `\s` sees it (ASCII subset). -/
def isWs (c : Char) : Bool := c == ' ' || c == '\t' || c == '\n' || c == '\r'

/-- Drop leading whitespace. -/
def dropWs (l : List Char) : List Char := l.dropWhile isWs

/-- Python `str.strip()`: remove surrounding whitespace. -/
def pyStripL (l : List Char) : List Char := ((dropWs l.reverse).reverse |> dropWs)

/-- Python `str.strip()` on `String`. -/
def pyStrip (s : String) : String := (pyStripL s.data).asString

/-- `needle` is an initial segment of `hay`. -/
def isHeadOf : List Char → List Char → Bool
  | [], _ => true
  | _ :: _, [] => false
  | c :: cs, d :: ds => c == d && isHeadOf cs ds

/-- `needle` occurs as a contiguous substring of `hay` (Python `in`,
XPath `contains`). -/
def hasSub : List Char → List Char → Bool
  | [], needle => isHeadOf needle []
  | h :: t, needle => isHeadOf needle (h :: t) || hasSub t needle

/-- Substring test on `String`. -/
def strHasSub (hay needle : String) : Bool := hasSub hay.data needle.data

/-- `needle` is a final segment of `hay` (Python `str.endswith`). -/
def endsWithL (hay needle : List Char) : Bool := isHeadOf needle.reverse hay.reverse

/-- Python truthiness of an optional string: `None` and `""` are falsy. -/
def truthy : Option String → Bool
  | none => false
  | some s => !(s == "")

/-- Python `a or b` for optional strings (returns `b` when `a` is falsy). -/
def pyOr (a : Option String) (b : String) : String :=
  match a with
  | some s => if s == "" then b else s
  | none => b

/-- `" ".join(l)` on character lists. -/
def joinSpaceL : List (List Char) → List Char
  | [] => []
  | [x] => x
  | x :: y :: rest => x ++ ' ' :: joinSpaceL (y :: rest)

/-- Python `" ".join(strings)`. -/
def joinSpace (l : List String) : String := (joinSpaceL (l.map String.data)).asString

/-! ## HTML document model

A parsed HTML page is a rose tree of element nodes (tag, attributes,
children) and text nodes.  The mutual list type keeps every traversal
structurally recursive, so all of them evaluate inside the kernel. -/

mutual
inductive Node : Type where
  | elem (tag : String) (attrs : List (String × String)) (children : NodeList)
  | text (s : String)
inductive NodeList : Type where
  | nil
  | cons (n : Node) (l : NodeList)
end

/-- Build a `NodeList` from a `List Node` (used to write document literals). -/
def nl : List Node → NodeList
  | [] => .nil
  | n :: ns => .cons n (nl ns)

/-- The tag of a node (text nodes have none). -/
def Node.tagOf : Node → Option String
  | .elem t _ _ => some t
  | .text _ => none

/-- Does this node carry the given element tag? -/
def isTag (n : Node) (t : String) : Bool :=
  match n with
  | .elem tg _ _ => tg == t
  | .text _ => false

/-- First value of an attribute, if present. -/
def attrOf (n : Node) (key : String) : Option String :=
  match n with
  | .text _ => none
  | .elem _ attrs _ =>
    match attrs.find? (fun kv => kv.1 == key) with
    | some kv => some kv.2
    | none => none

/-- XPath `@class` as a string: the empty string when the attribute is
absent, so `contains(@class, s)` on a class-less element is false. -/
def classOf (n : Node) : String := (attrOf n "class").getD ""

/-- XPath `@href` as a string (empty when absent), for `contains(@href, s)`. -/
def hrefOf (n : Node) : String := (attrOf n "href").getD ""

mutual
/-- All element nodes strictly below a node, in document (pre)order:
the node set `.//tag-filter-free` descendant axis. -/
def Node.descElems : Node → List Node
  | .text _ => []
  | .elem _ _ cs => NodeList.subElems cs
/-- All element nodes of a forest, in document order, each listed with
its whole subtree expansion (the node itself first, then its descendants). -/
def NodeList.subElems : NodeList → List Node
  | .nil => []
  | .cons (.text _) rest => NodeList.subElems rest
  | .cons (.elem t a cs) rest =>
      Node.elem t a cs :: NodeList.subElems cs ++ NodeList.subElems rest
end

mutual
/-- All text-node contents strictly below a node, in document order:
the node set `.//text()`. -/
def Node.texts : Node → List String
  | .text _ => []
  | .elem _ _ cs => NodeList.textsBelow cs
/-- Text-node contents of a forest, in document order. -/
def NodeList.textsBelow : NodeList → List String
  | .nil => []
  | .cons (.text s) rest => s :: NodeList.textsBelow rest
  | .cons (.elem _ _ cs) rest => NodeList.textsBelow cs ++ NodeList.textsBelow rest
end

/-- Convert a `NodeList` back to a `List Node`. -/
def nlToList : NodeList → List Node
  | .nil => []
  | .cons n rest => n :: nlToList rest

/-- The direct children of a node as a `List`. -/
def Node.childList : Node → List Node
  | .text _ => []
  | .elem _ _ cs => nlToList cs

/-- `.//thead//th` from an element context: every `th` element that has a
`thead` ancestor within (strictly below) the context node, in document
order.  The boolean flag records whether a `thead` ancestor has been seen;
this reproduces the XPath node-SET semantics (each `th` once), which a
naive flat-map over all `thead` descendants would not. -/
def collectTheadThs (inThead : Bool) : NodeList → List Node
  | .nil => []
  | .cons (.text _) rest => collectTheadThs inThead rest
  | .cons (.elem t a cs) rest =>
      (if inThead && t == "th" then [Node.elem t a cs] else []) ++
      collectTheadThs (inThead || t == "thead") cs ++ collectTheadThs inThead rest

/-- `.//thead//th` relative to an element. -/
def theadThs (n : Node) : List Node :=
  match n with
  | .text _ => []
  | .elem _ _ cs => collectTheadThs false cs

/-- Predicate `[.//thead//th]`: the element has at least one header cell
inside a `thead`. -/
def hasTheadTh (n : Node) : Bool := !(theadThs n).isEmpty

/-- All `.//text()` below any element with the given tag (XPath
`//tag//text()` node-set semantics: a text node is listed once iff it has
an ancestor with that tag). -/
def textsInsideTag (want : String) (inside : Bool) : NodeList → List String
  | .nil => []
  | .cons (.text s) rest =>
      (if inside then [s] else []) ++ textsInsideTag want inside rest
  | .cons (.elem t _ cs) rest =>
      textsInsideTag want (inside || t == want) cs ++ textsInsideTag want inside rest

/-- `//want//text()` over the whole document. -/
def docTextsInside (page : Node) (want : String) : List String :=
  match page with
  | .text _ => []
  | .elem t _ cs => textsInsideTag want (t == want) cs

/-! ## URL splitting (model of CPython `urllib.parse.urlsplit` / `urlunsplit`,
the standard-library collaborators of `_ensure_plus_variant`) -/

/-- CPython `scheme_chars`: ASCII letters, digits, `+`, `-`, `.`. -/
def schemeChar (c : Char) : Bool := c.isAlpha || c.isDigit || c == '+' || c == '-' || c == '.'

/-- The five components `urlsplit` produces. -/
structure UrlParts where
  scheme : List Char
  netloc : List Char
  path : List Char
  query : List Char
  fragment : List Char

/-- Split a list at the first occurrence of `c`: `l = before ++ c :: after`. -/
def splitFirst (c : Char) : List Char → Option (List Char × List Char)
  | [] => none
  | x :: xs =>
    if x == c then some ([], xs)
    else
      match splitFirst c xs with
      | some (a, b) => some (x :: a, b)
      | none => none

/-- Python `url.split(c, 1)` with a default empty second half. -/
def splitOnChar (c : Char) (u : List Char) : List Char × List Char :=
  match splitFirst c u with
  | some (a, b) => (a, b)
  | none => (u, [])

/-- A valid scheme prefix: nonempty, leading ASCII letter, all scheme chars. -/
def schemeOk : List Char → Bool
  | [] => false
  | c :: cs => c.isAlpha && (c :: cs).all schemeChar

/-- The scheme step of `urlsplit`: take everything before the first `:` when
it forms a valid scheme (CPython lowercases it). -/
def parseScheme (u : List Char) : List Char × List Char :=
  match splitFirst ':' u with
  | some (pre, post) => if schemeOk pre then (pre.map pyLower, post) else ([], u)
  | none => ([], u)

/-- A character that does not delimit the netloc. -/
def netChar (c : Char) : Bool := !(c == '/' || c == '?' || c == '#')

/-- The netloc step of `urlsplit`: after a leading `//` (CPython checks
`url[:2] == "//"`), everything up to the first `/`, `?` or `#`. -/
def parseNetloc (u : List Char) : List Char × List Char :=
  match u with
  | x :: y :: rest =>
    if x == '/' && y == '/' then (rest.takeWhile netChar, rest.dropWhile netChar)
    else ([], x :: y :: rest)
  | _ => ([], u)

/-- Model of `urllib.parse.urlsplit` (scheme, then netloc, then fragment,
then query — the order CPython uses). -/
def urlsplit (u : List Char) : UrlParts :=
  let sp := parseScheme u
  let np := parseNetloc sp.2
  let fp := splitOnChar '#' np.2
  let qp := splitOnChar '?' fp.1
  ⟨sp.1, np.1, qp.1, qp.2, fp.2⟩

/-- Model of `urllib.parse.urlunsplit`. -/
def urlunsplit (p : UrlParts) : List Char :=
  let url := p.path
  let url :=
    if p.netloc ≠ [] ∨ url.take 2 = ['/', '/'] then
      '/' :: '/' :: (p.netloc ++
        (match url with
         | c :: _ => if c == '/' then url else '/' :: url
         | [] => url))
    else url
  let url := if p.scheme ≠ [] then p.scheme ++ ':' :: url else url
  let url := if p.query ≠ [] then url ++ '?' :: p.query else url
  if p.fragment ≠ [] then url ++ '#' :: p.fragment else url

/-- Python `path.rstrip("/")`. -/
def rstripSlash (l : List Char) : List Char := (l.reverse.dropWhile (· == '/')).reverse

/-- `_ensure_plus_variant` on the character-list level: append `/plus/1` to
the path unless the path already contains `/plus/` (or ends in `/plus/1`),
keeping query and fragment intact. -/
def ensurePlusL (url : List Char) : List Char :=
  let parts := urlsplit url
  let path := parts.path
  if hasSub path "/plus/".data || endsWithL path "/plus/1".data then url
  else
    urlunsplit ⟨parts.scheme, parts.netloc, rstripSlash path ++ "/plus/1".data,
                parts.query, parts.fragment⟩

/-- `TransfermarktLeagueInjuries._ensure_plus_variant`. -/
def ensure_plus_variant (url : String) : String := (ensurePlusL url.data).asString

/-! ## Date normalizer (`_normalize_date`) -/

/-- Digit test (Python `\d`, ASCII). -/
def isDigitC (c : Char) : Bool := c.isDigit

/-- Numeric value of a digit string. -/
def digitsVal (l : List Char) : Nat := l.foldl (fun a c => a * 10 + (c.toNat - 48)) 0

/-- The digit character for `n < 10`. -/
def digitChar (n : Nat) : Char := Char.ofNat (48 + n)

/-- Python `f"{n:02d}"` for `n < 100`. -/
def pad2 (n : Nat) : List Char :=
  if n < 10 then ['0', digitChar n] else [digitChar (n / 10), digitChar (n % 10)]

/-- `strftime("%Y")` for a four-digit year. -/
def pad4 (n : Nat) : List Char :=
  [digitChar (n / 1000 % 10), digitChar (n / 100 % 10), digitChar (n / 10 % 10), digitChar (n % 10)]

/-- Regex `^\d{4}-\d{2}-\d{2}$`. -/
def isIsoShape : List Char → Bool
  | [a, b, c, d, '-', e, f, '-', g, h] =>
      isDigitC a && isDigitC b && isDigitC c && isDigitC d && isDigitC e && isDigitC f &&
      isDigitC g && isDigitC h
  | _ => false

/-- Regex `^(\d{1,2})\.(\d{1,2})\.(\d{4})$`; returns (day, month, year digits). -/
def dotsMatch (l : List Char) : Option (Nat × Nat × List Char) :=
  let ds := l.takeWhile isDigitC
  let r1 := l.dropWhile isDigitC
  if ds.length == 1 || ds.length == 2 then
    match r1 with
    | '.' :: r2 =>
      let ms := r2.takeWhile isDigitC
      let r3 := r2.dropWhile isDigitC
      if ms.length == 1 || ms.length == 2 then
        match r3 with
        | '.' :: ys =>
          if ys.length == 4 && ys.all isDigitC then some (digitsVal ds, digitsVal ms, ys)
          else none
        | _ => none
      else none
    | _ => none
  else none

/-- Regex `^(\d{1,2})/(\d{1,2})/(\d{2,4})$`; returns (day, month, year digits). -/
def slashMatch (l : List Char) : Option (Nat × Nat × List Char) :=
  let ds := l.takeWhile isDigitC
  let r1 := l.dropWhile isDigitC
  if ds.length == 1 || ds.length == 2 then
    match r1 with
    | '/' :: r2 =>
      let ms := r2.takeWhile isDigitC
      let r3 := r2.dropWhile isDigitC
      if ms.length == 1 || ms.length == 2 then
        match r3 with
        | '/' :: ys =>
          if (2 ≤ ys.length && ys.length ≤ 4) && ys.all isDigitC then
            some (digitsVal ds, digitsVal ms, ys)
          else none
        | _ => none
      else none
    | _ => none
  else none

/-- The two-digit-year pivot: `("20" + y) if int(y) <= 69 else ("19" + y)`,
applied only to two-digit years. -/
def pivotYear (ys : List Char) : List Char :=
  if ys.length == 2 then
    (if digitsVal ys ≤ 69 then '2' :: '0' :: ys else '1' :: '9' :: ys)
  else ys

/-- `strptime` `%b`: the C-locale month abbreviations, case-insensitively. -/
def monthAbbrev3 (a b c : Char) : Option Nat :=
  let k := [pyLower a, pyLower b, pyLower c]
  if k = ['j', 'a', 'n'] then some 1
  else if k = ['f', 'e', 'b'] then some 2
  else if k = ['m', 'a', 'r'] then some 3
  else if k = ['a', 'p', 'r'] then some 4
  else if k = ['m', 'a', 'y'] then some 5
  else if k = ['j', 'u', 'n'] then some 6
  else if k = ['j', 'u', 'l'] then some 7
  else if k = ['a', 'u', 'g'] then some 8
  else if k = ['s', 'e', 'p'] then some 9
  else if k = ['o', 'c', 't'] then some 10
  else if k = ['n', 'o', 'v'] then some 11
  else if k = ['d', 'e', 'c'] then some 12
  else none

/-- Whitespace in a `strptime` format string matches `\s+`. -/
def eatWs1 : List Char → Option (List Char)
  | c :: rest => if isWs c then some (rest.dropWhile isWs) else none
  | [] => none

/-- After the day: the literal `,`, whitespace, and a four-digit year ending
the string (`strptime` requires the whole string to be consumed). -/
def parseTailYear (l : List Char) : Option Nat :=
  match l with
  | ',' :: r =>
    match eatWs1 r with
    | some r2 => if r2.length == 4 && r2.all isDigitC then some (digitsVal r2) else none
    | none => none
  | _ => none

/-- `strptime` `%d`, two-digit alternatives `3[01]|[12]\d|0[1-9]`. -/
def day2 (l : List Char) : Option (Nat × List Char) :=
  match l with
  | a :: b :: rest =>
    if a == '3' && (b == '0' || b == '1') then some (digitsVal [a, b], rest)
    else if (a == '1' || a == '2') && isDigitC b then some (digitsVal [a, b], rest)
    else if a == '0' && isDigitC b && !(b == '0') then some (digitsVal [a, b], rest)
    else none
  | _ => none

/-- `strptime` `%d`, single-digit alternative `[1-9]`. -/
def day1 (l : List Char) : Option (Nat × List Char) :=
  match l with
  | a :: rest => if isDigitC a && !(a == '0') then some (digitsVal [a], rest) else none
  | _ => none

/-- `strptime` `%d`, space-padded alternative `  [1-9]` (a literal space). -/
def daySp (l : List Char) : Option (Nat × List Char) :=
  match l with
  | ' ' :: a :: rest => if isDigitC a && !(a == '0') then some (digitsVal [a], rest) else none
  | _ => none

/-- Gregorian leap year (what `datetime` validates against). -/
def isLeap (y : Nat) : Bool := y % 4 == 0 && (!(y % 100 == 0) || y % 400 == 0)

/-- Days in a month, as `datetime` validates. -/
def daysInMonth (y mo : Nat) : Nat :=
  if mo == 2 then (if isLeap y then 29 else 28)
  else if mo == 4 || mo == 6 || mo == 9 || mo == 11 then 30
  else 31

/-- `datetime.strptime(s, "%b %d, %Y")`: month abbreviation, whitespace, day,
comma, whitespace, four-digit year; then `datetime` construction validates
the calendar (`1 <= year`, day within the month).  The day alternatives are
tried in the order of the `strptime` regex, each followed by the tail match,
mirroring regex backtracking.  Returns (year, month, day). -/
def parseMonDY (l : List Char) : Option (Nat × Nat × Nat) :=
  match l with
  | a :: b :: c :: rest =>
    match monthAbbrev3 a b c with
    | none => none
    | some mo =>
      match eatWs1 rest with
      | none => none
      | some r1 =>
        let structural : Option (Nat × Nat) :=
          match day2 r1 with
          | some (d, r2) =>
            (match parseTailYear r2 with
             | some y => some (d, y)
             | none =>
               match day1 r1 with
               | some (d1, r3) =>
                 (match parseTailYear r3 with
                  | some y => some (d1, y)
                  | none =>
                    match daySp r1 with
                    | some (d2, r4) =>
                      (match parseTailYear r4 with
                       | some y => some (d2, y)
                       | none => none)
                    | none => none)
               | none =>
                 match daySp r1 with
                 | some (d2, r4) =>
                   (match parseTailYear r4 with
                    | some y => some (d2, y)
                    | none => none)
                 | none => none)
          | none =>
            match day1 r1 with
            | some (d1, r3) =>
              (match parseTailYear r3 with
               | some y => some (d1, y)
               | none =>
                 match daySp r1 with
                 | some (d2, r4) =>
                   (match parseTailYear r4 with
                    | some y => some (d2, y)
                    | none => none)
                 | none => none)
            | none =>
              match daySp r1 with
              | some (d2, r4) =>
                (match parseTailYear r4 with
                 | some y => some (d2, y)
                 | none => none)
              | none => none
        match structural with
        | some (d, y) =>
          if 1 ≤ y ∧ 1 ≤ d ∧ d ≤ daysInMonth y mo then some (y, mo, d) else none
        | none => none
  | _ => none

/-- `re.sub(r"^[A-Za-z]{3},\s*", "", s)`: strip a three-letter weekday
abbreviation, the comma, and following whitespace. -/
def stripWeekday (l : List Char) : List Char :=
  match l with
  | a :: b :: c :: ',' :: rest =>
    if a.isAlpha && b.isAlpha && c.isAlpha then rest.dropWhile isWs else l
  | _ => l

/-- The recognized "unknown" placeholder tokens. -/
def isPlaceholder (s : String) : Bool :=
  s == "-" || s == "?" || s == "unknown" || s == "Unknown"

/-- `strftime("%Y-%m-%d")`. -/
def fmtYMD (y mo d : Nat) : List Char := pad4 y ++ '-' :: pad2 mo ++ '-' :: pad2 d

/-- `TransfermarktLeagueInjuries._normalize_date`: canonicalize the supported
Transfermarkt date shapes to `YYYY-MM-DD`, or `None`. -/
def normalize_date (s? : Option String) : Option String :=
  match s? with
  | none => none
  | some s =>
    if s == "" || isPlaceholder s then none
    else
      let t := pyStripL s.data
      if isIsoShape t then some t.asString
      else
        match dotsMatch t with
        | some (d, mo, ys) => some ((ys ++ '-' :: pad2 mo ++ '-' :: pad2 d).asString)
        | none =>
          match slashMatch t with
          | some (d, mo, ys) =>
              some ((pivotYear ys ++ '-' :: pad2 mo ++ '-' :: pad2 d).asString)
          | none =>
            match parseMonDY t with
            | some (y, mo, d) => some (fmtYMD y mo d).asString
            | none =>
              match parseMonDY (stripWeekday t) with
              | some (y, mo, d) => some (fmtYMD y mo d).asString
              | none => none

/-- The seven documented input shapes of §4.5, transcribed from the cascade
of `_normalize_date`: empty/placeholder (case 1), ISO passthrough (2),
dotted (3), slashed (4), month-name (5), weekday-prefixed month-name (6).
Anything else is case 7, which must map to `None`. -/
def matchesDocumented (s : String) : Bool :=
  s == "" || isPlaceholder s ||
  isIsoShape (pyStripL s.data) || (dotsMatch (pyStripL s.data)).isSome ||
  (slashMatch (pyStripL s.data)).isSome || (parseMonDY (pyStripL s.data)).isSome ||
  (parseMonDY (stripWeekday (pyStripL s.data))).isSome

/-! ## Text normalizer (`_norm_text`) and column mapper (`_build_column_map`) -/

/-- Python `\w` restricted to ASCII (non-ASCII word characters are outside
the modelled alphabet). -/
def isWordChar (c : Char) : Bool := c.isAlpha || c.isDigit || c == '_'

/-- `re.sub(r"\s+", " ", s)`: collapse every whitespace run to one space. -/
def collapseWs : List Char → List Char
  | [] => []
  | [c] => [if isWs c then ' ' else c]
  | c :: d :: rest =>
    if isWs c && isWs d then collapseWs (d :: rest)
    else (if isWs c then ' ' else c) :: collapseWs (d :: rest)

/-- `TransfermarktLeagueInjuries._norm_text`: strip, lowercase, collapse
whitespace, remove non-word non-space characters.  The Unicode NFKD
decomposition and combining-mark removal of the source are modelled as the
identity (exact on the ASCII inputs all verified properties use). -/
def norm_text (s : String) : String :=
  if s == "" then ""
  else
    let l := (pyStripL s.data).map pyLower
    ((collapseWs l).filter (fun c => isWordChar c || c == ' ')).asString

/-- The alias table of `_build_column_map`, in source (dict insertion) order. -/
def variants : List (String × List String) := [
  ("player", ["player", "spieler"]),
  ("club", ["club", "verein", "team", "mannschaft"]),
  ("injury", ["injury", "verletzung"]),
  ("since", ["since", "seit", "from", "injury since", "date of injury", "out since"]),
  ("until", ["until", "bis", "to", "return date", "back on", "out until"]),
  ("expectedreturn", ["expected return", "erwartete rückkehr", "voraussichtliche rückkehr",
                      "expected back"]),
  ("daysabsent", ["days", "tage", "fehltage"]),
  ("gamesmissed", ["games missed", "spiele verpasst", "spiele"]),
  ("notes", ["note", "notes", "bemerkung", "anmerkung"]),
  ("position", ["position", "pos."])]

/-- `canon`: the first field key whose alias set contains the normalized
header, or `None`. -/
def canon (h : String) : Option String :=
  match variants.find? (fun kv => kv.2.contains h) with
  | some kv => some kv.1
  | none => none

/-- The normalized header strings of a table, in document order. -/
def headersOf (table : Node) : List String :=
  (theadThs table).map (fun th => norm_text (joinSpace (Node.texts th)))

/-- The empty column map (a Python dict is modelled as a lookup function). -/
def emptyCM : String → Option Nat := fun _ => none

/-- `col_map[key] = idx`: overwrite-or-insert. -/
def cmInsert (m : String → Option Nat) (k : String) (v : Nat) : String → Option Nat :=
  fun q => if q == k then some v else m q

/-- The header loop of `_build_column_map`: `for idx, raw in
enumerate(headers, start=1): key = canon(raw); if key: col_map[key] = idx`. -/
def buildCM : List String → Nat → (String → Option Nat) → (String → Option Nat)
  | [], _, m => m
  | h :: rest, i, m =>
      buildCM rest (i + 1)
        (match canon h with
         | some k => cmInsert m k i
         | none => m)

/-- `TransfermarktLeagueInjuries._build_column_map`. -/
def build_column_map (table : Node) : String → Option Nat :=
  buildCM (headersOf table) 1 emptyCM

/-- Specification-shaped description of the column map: the 1-based position
of the LAST header (at base index `i`) whose canonical key is `k`. -/
def lastMatchFrom : List String → Nat → String → Option Nat
  | [], _, _ => none
  | h :: rest, i, k =>
      match lastMatchFrom rest (i + 1) k with
      | some j => some j
      | none => if canon h == some k then some i else none

/-! ## Errors, Python list subscripting, external collaborators -/

/-- The failures the module can raise: the "injuries table not found"
failure (which the specification calls `NotFoundError`; in the source a
`ValueError` in `_get_injuries_table` and the base-class guard in
`__post_init__`), and `IndexError` from a bare list subscript. -/
inductive Err : Type where
  | notFoundError
  | indexError
deriving DecidableEq, Repr

instance {ε α : Type} [DecidableEq ε] [DecidableEq α] : DecidableEq (Except ε α) := fun a b =>
  match a, b with
  | .ok x, .ok y =>
    if h : x = y then isTrue (by rw [h]) else isFalse (by intro hc; cases hc; exact h rfl)
  | .error x, .error y =>
    if h : x = y then isTrue (by rw [h]) else isFalse (by intro hc; cases hc; exact h rfl)
  | .ok _, .error _ => isFalse (by intro hc; cases hc)
  | .error _, .ok _ => isFalse (by intro hc; cases hc)

/-- Python list subscription `l[i]`: negative indices wrap once from the
end; an index out of range raises `IndexError`. -/
def pyGet {α : Type} (l : List α) (i : Int) : Except Err α :=
  let j : Int := if i < 0 then i + l.length else i
  if j < 0 then .error .indexError
  else
    match l.get? j.toNat with
    | some x => .ok x
    | none => .error .indexError

/-- Modelled from the spec: `app.utils.utils.trim` (the module is not part
of the provided sources) — "given a string, trim surrounding whitespace". -/
def trim (s : String) : String := pyStrip s

/-- Modelled from the spec: `app.utils.utils.extract_from_url` (the module
is not part of the provided sources) — "given an href string, extract a
trailing numeric/alphanumeric identifier segment, or null if none found".
No verified property depends on its internals. -/
def extract_from_url (u? : Option String) : Option String :=
  match u? with
  | none => none
  | some s =>
    let l := s.data.reverse.dropWhile (· == '/')
    let seg := (l.takeWhile (fun c => !(c == '/'))).reverse
    if !seg.isEmpty && seg.all (fun c => c.isAlpha || c.isDigit) then some seg.asString
    else none

/-! ## Row parser (`_parse_row`) -/

/-- The output record of `_parse_row`: the nested `club` dict. -/
structure ClubInfo : Type where
  id : Option String
  name : Option String
deriving DecidableEq, Repr

/-- The output record of `_parse_row` (§3 InjuryRecord). -/
structure InjuryRecord : Type where
  playerId : Option String
  playerName : String
  playerUrl : Option String
  club : Option ClubInfo
  injury : String
  since : Option String
  «until» : Option String
deriving DecidableEq, Repr

/-- `tr.xpath("./td")`: the direct `td` children of a row. -/
def tdsOf (tr : Node) : List Node := tr.childList.filter (fun n => isTag n "td")

/-- The local helper `cell_text` of `_parse_row`: `None` when the key is
unmapped, falsy (0) or beyond the row, else the trimmed joined text of the
mapped cell. -/
def cell_text (tds : List Node) (colMap : String → Option Nat) (key : String) : Option String :=
  match colMap key with
  | none => none
  | some idx =>
    if idx == 0 || tds.length < idx then none
    else some (trim (joinSpace (Node.texts (tds.getD (idx - 1) (Node.text "")))))

/-- The local helper `cell_link` of `_parse_row`: the first descendant
anchor href of the mapped cell, trimmed. -/
def cell_link (tds : List Node) (colMap : String → Option Nat) (key : String) : Option String :=
  match colMap key with
  | none => none
  | some idx =>
    if idx == 0 || tds.length < idx then none
    else
      match ((tds.getD (idx - 1) (Node.text "")).descElems.filter
               (fun e => isTag e "a")).filterMap (fun a => attrOf a "href") with
      | h :: _ => some (trim h)
      | [] => none

/-- `.//a[contains(@class,'spielprofil') or contains(@href,'profil/spieler')]`. -/
def isPlayerAnchor (n : Node) : Bool :=
  isTag n "a" && (strHasSub (classOf n) "spielprofil" || strHasSub (hrefOf n) "profil/spieler")

/-- The player fallback of `_parse_row`: when the mapped name or URL is
falsy and a player-profile anchor exists in the row, BOTH name and URL are
re-derived from the matching anchors. -/
def playerPair (tr : Node) (tds : List Node) (colMap : String → Option Nat) :
    Option String × Option String :=
  let pName0 := cell_text tds colMap "player"
  let pUrl0 := cell_link tds colMap "player"
  if !truthy pName0 || !truthy pUrl0 then
    match (tr.descElems.filter isPlayerAnchor).filterMap (fun a => attrOf a "href") with
    | h :: _ =>
        (some (trim (joinSpace ((tr.descElems.filter isPlayerAnchor).flatMap Node.texts))),
         some (trim h))
    | [] => (pName0, pUrl0)
  else (pName0, pUrl0)

/-- The name-or-url after the player fallback (used by the acceptance rule). -/
def playerNameOf (tr : Node) (colMap : String → Option Nat) : Option String :=
  (playerPair tr (tdsOf tr) colMap).1

/-- The injury description: direct cell text off the mapped column, no
fallback. -/
def injuryOf (tr : Node) (colMap : String → Option Nat) : Option String :=
  cell_text (tdsOf tr) colMap "injury"

/-- The club block of `_parse_row`.  NOTE the bare subscript `tds[idx - 1]`
of the source: when the club column is mapped beyond the row it raises
`IndexError` — there is no bounds guard in this branch. -/
def clubPair (tds : List Node) (colMap : String → Option Nat) :
    Except Err (Option String × Option String) :=
  match colMap "club" with
  | none => .ok (none, none)
  | some idx =>
    let cn0 := cell_text tds colMap "club"
    let cu0 := cell_link tds colMap "club"
    if truthy cn0 then .ok (cn0, cu0)
    else
      match pyGet tds ((idx : Int) - 1) with
      | .error e => .error e
      | .ok cell =>
        let t := cell.descElems.filterMap (fun e =>
          if isTag e "a" then attrOf e "title"
          else if isTag e "img" then attrOf e "alt"
          else none)
        let cn := match t with
          | x :: _ => some (trim x)
          | [] => cn0
        let cu :=
          if truthy cu0 then cu0
          else
            match (cell.descElems.filter (fun e => isTag e "a")).filterMap
                    (fun a => attrOf a "href") with
            | h :: _ => some (trim h)
            | [] => none
        .ok (cn, cu)

/-- `td` with `contains(@class,'links')`. -/
def isLinksTd (n : Node) : Bool := isTag n "td" && strHasSub (classOf n) "links"

mutual
/-- Search a forest, in document order, for the first `td` whose class
contains "links" (`.//td[contains(@class,'links')][1]`, whose first
node in document order is exactly the overall first matching `td`);
return its following siblings of tag `td` (`itersiblings(tag="td")`). -/
def linksTdSibs : NodeList → Option (List Node)
  | .nil => none
  | .cons n rest =>
    if isLinksTd n then some ((nlToList rest).filter (fun m => isTag m "td"))
    else
      match linksTdSibsOf n with
      | some r => some r
      | none => linksTdSibs rest
/-- Descend into one node (document order puts a node before its subtree). -/
def linksTdSibsOf : Node → Option (List Node)
  | .text _ => none
  | .elem _ _ cs => linksTdSibs cs
end

/-- The since/until sibling-walking fallback of `_parse_row`.  The source
draws TWO items from the sibling iterator inside one `try` block before
using either; with fewer than two following `td` siblings the
`StopIteration` aborts the block and neither date is updated. -/
def sinceUntilFallback (tr : Node) (s0 u0 : Option String) : Option String × Option String :=
  if s0.isNone || u0.isNone then
    match linksTdSibsOf tr with
    | some (s1 :: s2 :: _) =>
        (if s0.isSome then s0 else normalize_date (some (trim (joinSpace (Node.texts s1)))),
         if u0.isSome then u0 else normalize_date (some (trim (joinSpace (Node.texts s2)))))
    | some _ => (s0, u0)
    | none => (s0, u0)
  else (s0, u0)

/-- The final since/until pair a row produces. -/
def sinceUntilOf (tr : Node) (colMap : String → Option Nat) : Option String × Option String :=
  let tds := tdsOf tr
  sinceUntilFallback tr (normalize_date (cell_text tds colMap "since"))
    (normalize_date (cell_text tds colMap "until"))

/-- `TransfermarktLeagueInjuries._parse_row`: `Except` models the
`IndexError` the club block can raise; `.ok none` is a silently dropped
row. -/
def parse_row (tr : Node) (colMap : String → Option Nat) : Except Err (Option InjuryRecord) :=
  let tds := tdsOf tr
  if tds.isEmpty then .ok none
  else
    let pp := playerPair tr tds colMap
    match clubPair tds colMap with
    | .error e => .error e
    | .ok (clubName, clubUrl) =>
      let injury := cell_text tds colMap "injury"
      let su := sinceUntilFallback tr (normalize_date (cell_text tds colMap "since"))
                  (normalize_date (cell_text tds colMap "until"))
      if !(truthy pp.1 && truthy injury) then .ok none
      else
        .ok (some
          { playerId := extract_from_url pp.2
            playerName := pp.1.getD ""
            playerUrl := pp.2
            club :=
              if truthy clubName || truthy clubUrl then
                some { id := extract_from_url clubUrl, name := clubName }
              else none
            injury := injury.getD ""
            since := su.1
            «until» := su.2 })

/-! ## Table locator (`_get_injuries_table`) and fetch bootstrap
(`__post_init__`) -/

/-- All elements of the document, root included (the `//` axis from the
document node). -/
def docAllElems (page : Node) : List Node :=
  match page with
  | .text _ => []
  | .elem t a cs => Node.elem t a cs :: (Node.elem t a cs).descElems

/-- Cascade level 1:
`//table[contains(@class,'items') or contains(@class,'responsive')][.//thead//th]`
(also the guard of `__post_init__`, whose `and` form is the same predicate). -/
def qualTable1 (t : Node) : Bool :=
  isTag t "table" && (strHasSub (classOf t) "items" || strHasSub (classOf t) "responsive") &&
  hasTheadTh t

/-- Cascade level 2: `//table[.//thead//th]`. -/
def qualTable2 (t : Node) : Bool := isTag t "table" && hasTheadTh t

/-- The level-1 candidate list. -/
def tablesLevel1 (page : Node) : List Node := (docAllElems page).filter qualTable1

/-- The level-2 (fallback) candidate list. -/
def tablesLevel2 (page : Node) : List Node := (docAllElems page).filter qualTable2

/-- `TransfermarktLeagueInjuries._get_injuries_table`: first candidate of
the first nonempty cascade level, else the failure the spec calls
`NotFoundError` (a `ValueError` in the source). -/
def get_injuries_table (page : Node) : Except Err Node :=
  match tablesLevel1 page with
  | t :: _ => .ok t
  | [] =>
    match tablesLevel2 page with
    | t :: _ => .ok t
    | [] => .error .notFoundError

/-- The `__post_init__` guard:
`//table[(contains(@class,'items') or contains(@class,'responsive')) and .//thead//th]`. -/
def hasGuardTable (page : Node) : Bool := (docAllElems page).any qualTable1

/-- `//table`: does any table element exist at all? -/
def hasAnyTable (page : Node) : Bool := (docAllElems page).any (fun t => isTag t "table")

/-- The specification's acceptance criterion for §4.7 as the claim states
it: the document contains any table with header cells (cascade level 2). -/
def hasAnyHeaderTable (page : Node) : Bool := (docAllElems page).any qualTable2

/-- `TransfermarktLeagueInjuries.__post_init__`, with the HTTP fetch
modelled as a function from URL to document.  Mirrors the candidate loop:
the `/plus/1` variant first (only once when it equals the original), accept
on the guard; after the loop the base-class guard
`raise_exception_if_not_found(xpath="//table")` runs against the LAST
fetched page (modelled from the spec: it raises `NotFoundError` exactly
when the XPath finds nothing; the base class is not part of the provided
sources).  Returns the URL/page pair the object retains. -/
def post_init (fetch : String → Node) (url0 : String) : Except Err (String × Node) :=
  let primary := ensure_plus_variant url0
  if primary == url0 then
    let page := fetch primary
    if hasGuardTable page then .ok (primary, page)
    else if hasAnyTable page then .ok (primary, page)
    else .error .notFoundError
  else
    let p1 := fetch primary
    if hasGuardTable p1 then .ok (primary, p1)
    else
      let p2 := fetch url0
      if hasGuardTable p2 then .ok (url0, p2)
      else if hasAnyTable p2 then .ok (url0, p2)
      else .error .notFoundError

/-! ## Page-level orchestrator (`get_injuries`) -/

/-- JSON values, to state properties about the field NAMES of the returned
response dict. -/
inductive Json : Type where
  | null
  | str (s : String)
  | obj (fields : List (String × Json))
  | arr (xs : List Json)

/-- Key lookup in a JSON object. -/
def jsonLookup (j : Json) (k : String) : Option Json :=
  match j with
  | .obj fs =>
    match fs.find? (fun kv => kv.1 == k) with
    | some kv => some kv.2
    | none => none
  | _ => none

/-- The string carried by a JSON value, if it is a string. -/
def jsonStr? : Json → Option String
  | .str s => some s
  | _ => none

/-- The key list of a JSON object. -/
def jsonKeys : Json → List String
  | .obj fs => fs.map (fun kv => kv.1)
  | _ => []

/-- A Python `str | None` value as JSON. -/
def optJson : Option String → Json
  | some s => .str s
  | none => .null

/-- The nested club dict of a row record. -/
def clubJson (c : ClubInfo) : Json :=
  .obj [("id", optJson c.id), ("name", optJson c.name)]

/-- The dict `_parse_row` returns, as JSON. -/
def recordJson (r : InjuryRecord) : Json :=
  .obj [("player", .obj [("id", optJson r.playerId), ("name", .str r.playerName),
                         ("url", optJson r.playerUrl),
                         ("club", match r.club with
                                  | some c => clubJson c
                                  | none => .null)]),
        ("injury", .str r.injury),
        ("since", optJson r.since),
        ("until", optJson r.«until»)]

/-- `.//tbody/tr[td]`: the `tr` children of any descendant `tbody` that
contain at least one `td` child. -/
def tableDataRows (table : Node) : List Node :=
  ((table.descElems.filter (fun e => isTag e "tbody")).flatMap
    (fun tb => tb.childList.filter
      (fun r => isTag r "tr" && r.childList.any (fun c => isTag c "td"))))

/-- The row loop of `get_injuries`: parse every row, keep non-null results
in document order, propagating any raised `IndexError`. -/
def collectItems (rows : List Node) (colMap : String → Option Nat) :
    Except Err (List InjuryRecord) :=
  match rows with
  | [] => .ok []
  | r :: rest =>
    match parse_row r colMap with
    | .error e => .error e
    | .ok none => collectItems rest colMap
    | .ok (some itm) =>
      match collectItems rest colMap with
      | .error e => .error e
      | .ok items => .ok (itm :: items)

/-- Texts selected for the breadcrumb fallback
`//nav//ol//li[last()]//a//text() | //nav//ol//li[last()]//text()`: as a
node SET the first operand is contained in the second, so the union is the
descendant texts of every "last li child" of any context node inside an
`ol` under a `nav`.  (Node-set deduplication for pathological nested
breadcrumb lists is not modelled; no verified property depends on it.) -/
def lastLiTexts (cs : List Node) : List String :=
  match (cs.filter (fun n => isTag n "li")).getLast? with
  | some l => Node.texts l
  | none => []

/-- Traversal for the breadcrumb selection: `hasNav` is "a strict ancestor
is a nav", `isCtx` is "a strict ancestor is (or is inside) an ol below a
nav". -/
def breadcrumbCollect (hasNav isCtx : Bool) : NodeList → List String
  | .nil => []
  | .cons (.text _) rest => breadcrumbCollect hasNav isCtx rest
  | .cons (.elem t _ cs) rest =>
    (if isCtx || (hasNav && t == "ol") then lastLiTexts (nlToList cs) else []) ++
    breadcrumbCollect (hasNav || t == "nav") (isCtx || (hasNav && t == "ol")) cs ++
    breadcrumbCollect hasNav isCtx rest

/-- The breadcrumb text list of a document. -/
def breadcrumbTexts (page : Node) : List String :=
  match page with
  | .text _ => []
  | .elem t _ cs => breadcrumbCollect (t == "nav") false cs

/-- `TransfermarktLeagueInjuries._guess_league_name`: h1 texts, else
breadcrumb, else title. -/
def guess_league_name (page : Node) : Option String :=
  let h1 := docTextsInside page "h1"
  if !h1.isEmpty then some (trim (joinSpace h1))
  else
    let crumb := breadcrumbTexts page
    if !crumb.isEmpty then some (trim (joinSpace crumb))
    else
      let t := docTextsInside page "title"
      if !t.isEmpty then some (trim (joinSpace t)) else none

/-- `TransfermarktLeagueInjuries._canonical_url`:
`//link[@rel='canonical']/@href | //meta[@property='og:url']/@content`. -/
def canonical_url (page : Node) : Option String :=
  match (docAllElems page).filterMap (fun e =>
    if isTag e "link" && (attrOf e "rel" == some "canonical") then attrOf e "href"
    else if isTag e "meta" && (attrOf e "property" == some "og:url") then attrOf e "content"
    else none) with
  | u :: _ => some (trim u)
  | [] => none

/-- `TransfermarktLeagueInjuries.get_injuries`: locate the table, build the
column map, parse the rows, attach page metadata.  `now` stands for
`datetime.now(timezone.utc).isoformat()` and `requestUrl` for `self.URL`;
the base-class `self.response` accumulator starts empty (modelled from the
spec: the result is exactly the §3 LeagueResult object), so the returned
dict has exactly the keys written by this method. -/
def get_injuries (page : Node) (now requestUrl : String) : Except Err Json :=
  match get_injuries_table page with
  | .error e => .error e
  | .ok table =>
    let colMap := build_column_map table
    match collectItems (tableDataRows table) colMap with
    | .error e => .error e
    | .ok items =>
      .ok (.obj [
        ("league", .obj [("name", optJson (guess_league_name page)),
                         ("url", .str (pyOr (canonical_url page) requestUrl))]),
        ("updatedAt", .str now),
        ("rows", .arr (items.map recordJson))])

/-- The club-overflow safety condition of `_parse_row`: the club column, if
mapped with a nonzero index, lies within the row's data cells.  (A zero
index is read as the LAST cell by Python negative indexing, which cannot
raise on the nonempty rows that reach the club block.) -/
def clubSafe (tr : Node) (colMap : String → Option Nat) : Bool :=
  match colMap "club" with
  | none => true
  | some idx => idx == 0 || idx ≤ (tdsOf tr).length

/-! ## Concrete documents and column maps used by witnesses and
counterexamples -/

/-- A plain data cell with one text child. -/
def tdTxt (txt : String) : Node := Node.elem "td" [] (nl [Node.text txt])

/-- A data cell with a class attribute and one text child. -/
def tdCls (cls txt : String) : Node := Node.elem "td" [("class", cls)] (nl [Node.text txt])

/-- A column map with player in column 1 and injury in column 2. -/
def cmPI : String → Option Nat :=
  fun k => if k = "player" then some 1 else if k = "injury" then some 2 else none

/-- `cmPI` extended with a club column far beyond any short row. -/
def cmClub5 : String → Option Nat :=
  fun k =>
    if k = "player" then some 1
    else if k = "injury" then some 2
    else if k = "club" then some 5
    else none

/-- A second out-of-range club map (column 9). -/
def cmClub9 : String → Option Nat :=
  fun k =>
    if k = "player" then some 1
    else if k = "injury" then some 2
    else if k = "club" then some 9
    else none

/-- A row whose "links" cell has exactly ONE following `td` sibling, and
that sibling holds a perfectly parseable date. -/
def exRowOneSib : Node :=
  Node.elem "tr" [] (nl [tdTxt "Name", tdTxt "Ankle", tdCls "links" "x", tdTxt "11.10.2025"])

/-- A short row (two cells) with nonempty player and injury text. -/
def exRowShort : Node := Node.elem "tr" [] (nl [tdTxt "Name", tdTxt "Ankle"])

/-- A second short row, for a separate counterexample input. -/
def exRowShortB : Node := Node.elem "tr" [] (nl [tdTxt "Maria", tdTxt "Knee"])

/-- A row with a nonempty player cell but an empty injury cell. -/
def exRowNoInj : Node := Node.elem "tr" [] (nl [tdTxt "Name", tdTxt ""])

/-- A document with no table element at all. -/
def exNoTablesPage : Node := Node.elem "html" [] (nl [Node.text "no tables here"])

/-- A well-formed injuries table: `items` class, headers, one data row. -/
def exFullTable : Node :=
  Node.elem "table" [("class", "items")] (nl [
    Node.elem "thead" [] (nl [Node.elem "tr" [] (nl [
      Node.elem "th" [] (nl [Node.text "Player"]),
      Node.elem "th" [] (nl [Node.text "Injury"]),
      Node.elem "th" [] (nl [Node.text "Since"]),
      Node.elem "th" [] (nl [Node.text "Until"])])]),
    Node.elem "tbody" [] (nl [
      Node.elem "tr" [] (nl [tdTxt "John Doe", tdTxt "Knee injury", tdTxt "11.10.2025",
                             tdTxt "-"])])])

/-- A full page holding `exFullTable` and an h1 title. -/
def exFullPage : Node :=
  Node.elem "html" [] (nl [
    Node.elem "h1" [] (nl [Node.text "Premier League"]),
    Node.elem "body" [] (nl [exFullTable])])

/-- A page whose only table has header cells but NO items/responsive class
marker: it satisfies the specification's "any table with header cells"
criterion yet fails the `__post_init__` guard. -/
def exPlainHeaderPage : Node :=
  Node.elem "html" [] (nl [
    Node.elem "table" [] (nl [
      Node.elem "thead" [] (nl [Node.elem "tr" [] (nl [
        Node.elem "th" [] (nl [Node.text "Player"])])])])])

/-- A fetch map: the richer variant of `http://x/a` yields the
class-less header table, the original yields a document with no table. -/
def exFetchC : String → Node :=
  fun u => if u == "http://x/a/plus/1" then exPlainHeaderPage else exNoTablesPage

/-- A fetch map that always yields the well-formed page. -/
def exFetchOk : String → Node := fun _ => exFullPage

end TM

namespace TM

/-! ## Helper lemmas -/

theorem filter_cons_of_any {α : Type} (p : α → Bool) (l : List α) (h : l.any p = true) :
    ∃ t ts, l.filter p = t :: ts := by
  induction l with
  | nil => simp at h
  | cons x xs ih =>
    by_cases hx : p x = true
    · exact ⟨x, xs.filter p, by simp [List.filter_cons, hx]⟩
    · have hxs : xs.any p = true := by
        simp only [List.any_cons, Bool.or_eq_true] at h
        rcases h with h | h
        · exact absurd h hx
        · exact h
      obtain ⟨t, ts, hts⟩ := ih hxs
      refine ⟨t, ts, ?_⟩
      simp only [List.filter_cons]
      rw [if_neg (by simpa using hx)]
      exact hts

theorem buildCM_eq_lastMatch (hs : List String) (i : Nat) (m : String → Option Nat)
    (k : String) :
    buildCM hs i m k =
      match lastMatchFrom hs i k with
      | some j => some j
      | none => m k := by
  induction hs generalizing i m with
  | nil => rfl
  | cons h rest ih =>
    simp only [buildCM, lastMatchFrom]
    rw [ih]
    cases hl : lastMatchFrom rest (i + 1) k with
    | some j => rfl
    | none =>
      cases hc : canon h with
      | none => rfl
      | some k2 =>
        simp only [cmInsert]
        by_cases hk : k = k2
        · subst hk
          simp
        · have h1 : (k == k2) = false := by simpa using hk
          have h2 : (some k2 == some k) = false := by
            simp only [beq_eq_false_iff_ne]
            intro hc2
            exact hk (by injection hc2 with h3; exact h3.symm)
          rw [h1, h2]
          simp

/-! ## Claim theorems -/

/-- C1: for every document in which no qualifying injuries table exists —
no table matching cascade level 1 (items/responsive class with a header
cell) and none matching level 2 (any table with a header cell) — the table
locator `_get_injuries_table` fails with the failure the specification
calls `NotFoundError`, and no table (no partial result) is returned. -/
theorem C1_locator_fails_notFound (page : Node)
    (h1 : tablesLevel1 page = []) (h2 : tablesLevel2 page = []) :
    get_injuries_table page = .error .notFoundError := by
  unfold get_injuries_table
  rw [h1, h2]

/-- C1 witness: a document with zero tables satisfies both hypotheses and
the locator fails on it. -/
theorem C1_locator_fails_notFound_witness :
    tablesLevel1 exNoTablesPage = [] ∧ tablesLevel2 exNoTablesPage = [] ∧
    get_injuries_table exNoTablesPage = .error .notFoundError :=
  ⟨rfl, rfl, C1_locator_fails_notFound exNoTablesPage rfl rfl⟩

/-- C7: the column map built by `_build_column_map` assigns to every
semantic field the 1-based position of the LAST header whose normalized
text matches the field's alias set (so with two or more matching headers
the later one wins), and headers matching no alias set contribute nothing
(fields with no matching header are absent from the map, since
`lastMatchFrom` is `none` exactly then). -/
theorem C7_last_match_wins (table : Node) (k : String) :
    build_column_map table k = lastMatchFrom (headersOf table) 1 k := by
  unfold build_column_map
  rw [buildCM_eq_lastMatch]
  cases lastMatchFrom (headersOf table) 1 k with
  | some j => rfl
  | none => rfl

/-- C8: whenever the `__post_init__` guard verified a table with an
items/responsive class marker and a `thead` header cell on the page the
constructed object stores, the subsequent `_get_injuries_table` call on
that same page cannot reach its failure branch: its first cascade level is
the same predicate the guard checked, so a candidate exists and the
`ValueError` is unreachable. -/
theorem C8_guard_makes_locator_total (fetch : String → Node) (url u : String) (page : Node)
    (hpost : post_init fetch url = .ok (u, page))
    (hguard : hasGuardTable page = true) :
    ∃ t, get_injuries_table page = .ok t := by
  have hne : ∃ t ts, tablesLevel1 page = t :: ts := by
    unfold hasGuardTable at hguard
    exact filter_cons_of_any qualTable1 (docAllElems page) hguard
  obtain ⟨t, ts, hts⟩ := hne
  refine ⟨t, ?_⟩
  unfold get_injuries_table
  rw [hts]

/-- C8 witness: a concrete successful construction whose stored page passes
the guard, on which the locator succeeds. -/
theorem C8_guard_makes_locator_total_witness :
    post_init exFetchOk "http://x/a" = .ok ("http://x/a/plus/1", exFullPage) ∧
    hasGuardTable exFullPage = true ∧
    ∃ t, get_injuries_table exFullPage = .ok t :=
  ⟨rfl, rfl,
   C8_guard_makes_locator_total exFetchOk "http://x/a" "http://x/a/plus/1" exFullPage rfl rfl⟩

/-- C2: `_normalize_date` maps each of the seven documented cases of §4.5
to the stated canonical ISO form (the spec's five concrete positives, plus
the two sides of the fixed two-digit-year pivot at 69/70), maps the
placeholder and empty inputs to `None`, and returns `None` for every input
matching none of the documented patterns; being a total function it never
raises. -/
theorem C2_normalize_date_cases :
    normalize_date (some "2025-10-11") = some "2025-10-11" ∧
    normalize_date (some "11.10.2025") = some "2025-10-11" ∧
    normalize_date (some "1/9/25") = some "2025-09-01" ∧
    normalize_date (some "1/9/70") = some "1970-09-01" ∧
    normalize_date (some "Oct 11, 2025") = some "2025-10-11" ∧
    normalize_date (some "Sat, Oct 11, 2025") = some "2025-10-11" ∧
    normalize_date (some "-") = none ∧
    normalize_date (some "") = none ∧
    normalize_date none = none ∧
    (∀ s : String, matchesDocumented s = false → normalize_date (some s) = none) := by
  refine ⟨rfl, rfl, rfl, rfl, rfl, rfl, rfl, rfl, rfl, ?_⟩
  intro s hm
  unfold matchesDocumented at hm
  simp only [Bool.or_eq_false_iff] at hm
  obtain ⟨⟨⟨⟨⟨⟨he, hp⟩, hiso⟩, hdots⟩, hslash⟩, hmon⟩, hwk⟩ := hm
  have hd : dotsMatch (pyStripL s.data) = none := by
    revert hdots
    cases dotsMatch (pyStripL s.data)
    · intro _; rfl
    · intro hdots; simp at hdots
  have hsl : slashMatch (pyStripL s.data) = none := by
    revert hslash
    cases slashMatch (pyStripL s.data)
    · intro _; rfl
    · intro hslash; simp at hslash
  have hmo : parseMonDY (pyStripL s.data) = none := by
    revert hmon
    cases parseMonDY (pyStripL s.data)
    · intro _; rfl
    · intro hmon; simp at hmon
  have hw : parseMonDY (stripWeekday (pyStripL s.data)) = none := by
    revert hwk
    cases parseMonDY (stripWeekday (pyStripL s.data))
    · intro _; rfl
    · intro hwk; simp at hwk
  unfold normalize_date
  simp only [he, hp, hiso, hd, hsl, hmo, hw, Bool.or_self, Bool.or_false, if_false]
  simp

/-- C2 witness: a concrete undocumented input on which the universally
quantified clause yields `None`. -/
theorem C2_normalize_date_cases_witness :
    matchesDocumented "next week" = false ∧ normalize_date (some "next week") = none :=
  ⟨rfl, C2_normalize_date_cases.2.2.2.2.2.2.2.2.2 "next week" rfl⟩

theorem pyGet_ok {α : Type} (l : List α) (i : Int) (h0 : 0 ≤ i + l.length)
    (h1 : i < l.length) : ∃ x, pyGet l i = .ok x := by
  unfold pyGet
  by_cases hneg : i < 0
  · rw [if_pos hneg, if_neg (by omega)]
    have hlt : (i + l.length).toNat < l.length := by omega
    cases hg : l.get? (i + l.length).toNat with
    | none =>
      rw [List.get?_eq_none] at hg
      omega
    | some x => exact ⟨x, rfl⟩
  · rw [if_neg hneg, if_neg (by omega)]
    have hlt : i.toNat < l.length := by omega
    cases hg : l.get? i.toNat with
    | none =>
      rw [List.get?_eq_none] at hg
      omega
    | some x => exact ⟨x, rfl⟩

theorem parse_row_of_empty (tr : Node) (cm : String → Option Nat)
    (h : (tdsOf tr).isEmpty = true) : parse_row tr cm = .ok none := by
  unfold parse_row
  simp only [h, if_true]

theorem clubPair_ok_of_safe (tr : Node) (cm : String → Option Nat)
    (hne : (tdsOf tr).isEmpty = false) (hs : clubSafe tr cm = true) :
    ∃ p, clubPair (tdsOf tr) cm = .ok p := by
  unfold clubSafe at hs
  unfold clubPair
  cases hc : cm "club" with
  | none => exact ⟨(none, none), rfl⟩
  | some idx =>
    rw [hc] at hs
    dsimp only at hs ⊢
    by_cases ht : truthy (cell_text (tdsOf tr) cm "club") = true
    · rw [if_pos ht]
      exact ⟨_, rfl⟩
    · have ht2 : truthy (cell_text (tdsOf tr) cm "club") = false := by
        simpa using ht
      rw [if_neg (by simp [ht2])]
      have hlen : 1 ≤ (tdsOf tr).length := by
        cases hl : tdsOf tr with
        | nil => rw [hl] at hne; simp at hne
        | cons a as => simp [hl]
      have hbound : 0 ≤ ((idx : Int) - 1) + (tdsOf tr).length ∧
          ((idx : Int) - 1) < (tdsOf tr).length := by
        simp only [Bool.or_eq_true, beq_iff_eq, decide_eq_true_eq] at hs
        rcases hs with hs | hs
        · subst hs; constructor <;> omega
        · constructor <;> omega
      obtain ⟨cell, hcell⟩ := pyGet_ok (tdsOf tr) ((idx : Int) - 1) hbound.1 hbound.2
      rw [hcell]
      exact ⟨_, rfl⟩

/-- C10 (code bug): at the failing input — a two-cell row against a column
map that places `club` at column 5 — the guarded lookups `cell_text` and
`cell_link` do return `None` as the claim says, but `_parse_row` does NOT
return normally: the club fallback immediately subscripts `tds[idx - 1]`
without a bounds check and raises `IndexError`. -/
theorem C10_club_overflow_raises :
    cell_text (tdsOf exRowShort) cmClub5 "club" = none ∧
    cell_link (tdsOf exRowShort) cmClub5 "club" = none ∧
    parse_row exRowShort cmClub5 = .error .indexError :=
  ⟨rfl, rfl, rfl⟩

/-- C5 counterexample: a row whose player name and injury description are
both non-empty, yet `_parse_row` returns no record AND does not return
`null` — it raises `IndexError` through the club fallback, refuting the
claimed equivalence (and its "otherwise returns null" half) as stated for
every column map. -/
theorem C5_counterexample :
    truthy (playerNameOf exRowShortB cmClub9) = true ∧
    truthy (injuryOf exRowShortB cmClub9) = true ∧
    parse_row exRowShortB cmClub9 = .error .indexError :=
  ⟨rfl, rfl, rfl⟩

/-- C5 (amended): provided the club fallback cannot index out of bounds
(club unmapped, or mapped within the row, or mapped to the falsy index 0),
`_parse_row` yields a record exactly when the row has at least one data
cell and both the player name and the injury description are non-empty
after all fallbacks; otherwise it returns `null`, and a row with zero data
cells returns `null` immediately. -/
theorem C5_acceptance_rule (tr : Node) (cm : String → Option Nat)
    (hsafe : clubSafe tr cm = true) :
    ((∃ r, parse_row tr cm = .ok (some r)) ↔
      ((tdsOf tr).isEmpty = false ∧ truthy (playerNameOf tr cm) = true ∧
       truthy (injuryOf tr cm) = true)) ∧
    ((tdsOf tr).isEmpty = true → parse_row tr cm = .ok none) ∧
    ((truthy (playerNameOf tr cm) && truthy (injuryOf tr cm)) = false →
      parse_row tr cm = .ok none) := by
  by_cases he : (tdsOf tr).isEmpty = true
  · have h1 := parse_row_of_empty tr cm he
    refine ⟨⟨fun ⟨r, hr⟩ => ?_, fun ⟨hne, _⟩ => ?_⟩, fun _ => h1, fun _ => h1⟩
    · rw [h1] at hr
      simp at hr
    · rw [he] at hne
      simp at hne
  · have hne : (tdsOf tr).isEmpty = false := by simpa using he
    obtain ⟨⟨cn, cu⟩, hcp⟩ := clubPair_ok_of_safe tr cm hne hsafe
    have hred : parse_row tr cm =
        (if !(truthy (playerNameOf tr cm) && truthy (injuryOf tr cm)) then
           Except.ok none
         else
           Except.ok (some
             { playerId := extract_from_url (playerPair tr (tdsOf tr) cm).2
               playerName := (playerPair tr (tdsOf tr) cm).1.getD ""
               playerUrl := (playerPair tr (tdsOf tr) cm).2
               club :=
                 if truthy cn || truthy cu then
                   some { id := extract_from_url cu, name := cn }
                 else none
               injury := (cell_text (tdsOf tr) cm "injury").getD ""
               since := (sinceUntilFallback tr
                 (normalize_date (cell_text (tdsOf tr) cm "since"))
                 (normalize_date (cell_text (tdsOf tr) cm "until"))).1
               «until» := (sinceUntilFallback tr
                 (normalize_date (cell_text (tdsOf tr) cm "since"))
                 (normalize_date (cell_text (tdsOf tr) cm "until"))).2 })) := by
      unfold parse_row
      simp only [hne, Bool.false_eq_true, if_false, hcp]
      rfl
    by_cases hacc : (truthy (playerNameOf tr cm) && truthy (injuryOf tr cm)) = true
    · rw [hacc] at hred
      simp only [Bool.not_true, Bool.false_eq_true, if_false] at hred
      refine ⟨⟨fun _ => ?_, fun _ => ⟨_, hred⟩⟩, fun hemp => ?_, fun hf => ?_⟩
      · have hacc2 := hacc
        rw [Bool.and_eq_true] at hacc2
        exact ⟨hne, hacc2.1, hacc2.2⟩
      · rw [hemp] at hne; simp at hne
      · rw [hacc] at hf; simp at hf
    · have hf : (truthy (playerNameOf tr cm) && truthy (injuryOf tr cm)) = false := by
        simpa using hacc
      rw [hf] at hred
      simp only [Bool.not_false, if_true] at hred
      refine ⟨⟨fun ⟨r, hr⟩ => ?_, fun ⟨_, hn, hi⟩ => ?_⟩, fun hemp => ?_, fun _ => hred⟩
      · rw [hred] at hr
        simp at hr
      · rw [hn, hi] at hf
        simp at hf
      · rw [hemp] at hne; simp at hne

/-- C5 witness: a two-cell row with an empty injury cell is safe for the
club fallback and is dropped (returns `null`). -/
theorem C5_acceptance_rule_witness :
    clubSafe exRowNoInj cmPI = true ∧ parse_row exRowNoInj cmPI = .ok none :=
  ⟨rfl, (C5_acceptance_rule exRowNoInj cmPI rfl).2.2 rfl⟩

/-- C4 counterexample: a row whose "links" cell has exactly ONE following
sibling cell holding the perfectly parseable date `11.10.2025` (and no
mapped since/until columns).  The claim says `since` is taken from that
sibling and only `until` stays null; the code aborts the whole fallback on
the second `next(sibs)` (`StopIteration` is raised before any assignment),
so BOTH dates stay null. -/
theorem C4_counterexample :
    parse_row exRowOneSib cmPI = .ok (some
      { playerId := none, playerName := "Name", playerUrl := none, club := none,
        injury := "Ankle", since := none, «until» := none }) ∧
    normalize_date (some "11.10.2025") = some "2025-10-11" :=
  ⟨rfl, rfl⟩

/-- C4 (amended): when since or until is still unresolved after the mapped
columns, the fallback locates the first "links" cell; if it has at least
TWO following `td` siblings, they provide since and until respectively
(each normalized, filling only the unresolved dates); if it has FEWER than
two following `td` siblings — zero or one — the fallback contributes
nothing at all: the single available sibling is NOT consulted and the
unresolved dates simply stay null (and none of this raises: the
`StopIteration` is caught).  The last clause ties the pair to the record
`_parse_row` returns. -/
theorem C4_sibling_fallback (tr : Node) (cm : String → Option Nat)
    (hun : ((normalize_date (cell_text (tdsOf tr) cm "since")).isNone ||
            (normalize_date (cell_text (tdsOf tr) cm "until")).isNone) = true) :
    (∀ s1 s2 rest, linksTdSibsOf tr = some (s1 :: s2 :: rest) →
      sinceUntilOf tr cm =
        ((if (normalize_date (cell_text (tdsOf tr) cm "since")).isSome then
            normalize_date (cell_text (tdsOf tr) cm "since")
          else normalize_date (some (trim (joinSpace s1.texts)))),
         (if (normalize_date (cell_text (tdsOf tr) cm "until")).isSome then
            normalize_date (cell_text (tdsOf tr) cm "until")
          else normalize_date (some (trim (joinSpace s2.texts)))))) ∧
    (∀ sibs, linksTdSibsOf tr = some sibs → sibs.length < 2 →
      sinceUntilOf tr cm =
        (normalize_date (cell_text (tdsOf tr) cm "since"),
         normalize_date (cell_text (tdsOf tr) cm "until"))) ∧
    (linksTdSibsOf tr = none →
      sinceUntilOf tr cm =
        (normalize_date (cell_text (tdsOf tr) cm "since"),
         normalize_date (cell_text (tdsOf tr) cm "until"))) ∧
    (∀ r, parse_row tr cm = .ok (some r) →
      r.since = (sinceUntilOf tr cm).1 ∧ r.«until» = (sinceUntilOf tr cm).2) := by
  refine ⟨?_, ?_, ?_, ?_⟩
  · intro s1 s2 rest hsib
    unfold sinceUntilOf sinceUntilFallback
    simp only [hun, hsib, if_true]
  · intro sibs hsib hlen
    unfold sinceUntilOf sinceUntilFallback
    simp only [hun, hsib, if_true]
    rcases sibs with _ | ⟨s1, _ | ⟨s2, rest⟩⟩
    · rfl
    · rfl
    · exfalso
      rw [List.length_cons, List.length_cons] at hlen
      omega
  · intro hsib
    unfold sinceUntilOf sinceUntilFallback
    simp only [hun, hsib, if_true]
  · intro r hr
    unfold parse_row at hr
    by_cases he : (tdsOf tr).isEmpty = true
    · simp only [he, if_true] at hr
      simp at hr
    · have hne : (tdsOf tr).isEmpty = false := by simpa using he
      simp only [hne, Bool.false_eq_true, if_false] at hr
      cases hcp : clubPair (tdsOf tr) cm with
      | error e =>
        rw [hcp] at hr
        simp at hr
      | ok p =>
        obtain ⟨cn, cu⟩ := p
        rw [hcp] at hr
        by_cases hacc : (truthy (playerPair tr (tdsOf tr) cm).1 &&
            truthy (cell_text (tdsOf tr) cm "injury")) = true
        · simp only [hacc, Bool.not_true, Bool.false_eq_true, if_false, Except.ok.injEq,
            Option.some.injEq] at hr
          rw [← hr]
          unfold sinceUntilOf
          exact ⟨rfl, rfl⟩
        · have hf : (truthy (playerPair tr (tdsOf tr) cm).1 &&
              truthy (cell_text (tdsOf tr) cm "injury")) = false := by simpa using hacc
          simp only [hf, Bool.not_false, if_true] at hr
          simp at hr

/-- C4 witness: the one-sibling row satisfies the unresolved-dates
hypothesis and the fewer-than-two clause applies: the fallback leaves both
dates null. -/
theorem C4_sibling_fallback_witness :
    linksTdSibsOf exRowOneSib = some [tdTxt "11.10.2025"] ∧
    sinceUntilOf exRowOneSib cmPI = (none, none) :=
  ⟨rfl, (C4_sibling_fallback exRowOneSib cmPI rfl).2.1 [tdTxt "11.10.2025"] rfl (by simp)⟩

/-- C6 counterexample: on a concrete successful extraction the returned
object has NO `generatedAt` key — the timestamp is stored under
`updatedAt` (the name §6 of the specification itself uses). -/
theorem C6_counterexample :
    (get_injuries exFullPage "2025-10-11T00:00:00+00:00" "http://req0").toOption.map jsonKeys =
      some ["league", "updatedAt", "rows"] ∧
    (get_injuries exFullPage "2025-10-11T00:00:00+00:00" "http://req0").toOption.bind
      (fun j => jsonLookup j "generatedAt") = none ∧
    (get_injuries exFullPage "2025-10-11T00:00:00+00:00" "http://req0").toOption.bind
      (fun j => (jsonLookup j "updatedAt").bind jsonStr?) =
      some "2025-10-11T00:00:00+00:00" :=
  ⟨rfl, rfl, rfl⟩

/-- C6 (amended): every successful extraction returns an object whose keys
are exactly `league`, `updatedAt` and `rows`; the generation timestamp
(the current UTC time handed in as `now`) is stored under `updatedAt` —
not `generatedAt` — alongside `league: {name, url}` and `rows`. -/
theorem C6_updatedAt_field (page : Node) (now requestUrl : String) (j : Json)
    (h : get_injuries page now requestUrl = .ok j) :
    jsonKeys j = ["league", "updatedAt", "rows"] ∧
    (jsonLookup j "updatedAt").bind jsonStr? = some now ∧
    jsonLookup j "generatedAt" = none ∧
    jsonLookup j "league" = some (.obj [("name", optJson (guess_league_name page)),
        ("url", .str (pyOr (canonical_url page) requestUrl))]) ∧
    (∃ rowsJ, jsonLookup j "rows" = some rowsJ) := by
  unfold get_injuries at h
  cases hg : get_injuries_table page with
  | error e =>
    rw [hg] at h
    simp at h
  | ok table =>
    rw [hg] at h
    simp only [] at h
    cases hi : collectItems (tableDataRows table) (build_column_map table) with
    | error e =>
      rw [hi] at h
      simp at h
    | ok items =>
      rw [hi] at h
      simp only [Except.ok.injEq] at h
      subst h
      exact ⟨rfl, rfl, rfl, rfl, ⟨_, rfl⟩⟩

/-- C6 witness: the concrete page succeeds and the amended properties hold
on it. -/
theorem C6_updatedAt_field_witness :
    get_injuries exFullPage "T1" "http://req1" =
      .ok (.obj [
        ("league", .obj [("name", optJson (guess_league_name exFullPage)),
                         ("url", .str (pyOr (canonical_url exFullPage) "http://req1"))]),
        ("updatedAt", .str "T1"),
        ("rows", .arr [recordJson
          { playerId := none, playerName := "John Doe", playerUrl := none, club := none,
            injury := "Knee injury", since := some "2025-10-11", «until» := none }])]) ∧
    jsonLookup (.obj [
        ("league", .obj [("name", optJson (guess_league_name exFullPage)),
                         ("url", .str (pyOr (canonical_url exFullPage) "http://req1"))]),
        ("updatedAt", .str "T1"),
        ("rows", .arr [recordJson
          { playerId := none, playerName := "John Doe", playerUrl := none, club := none,
            injury := "Knee injury", since := some "2025-10-11", «until» := none }])])
      "generatedAt" = none ∧
    ((jsonLookup (.obj [
        ("league", .obj [("name", optJson (guess_league_name exFullPage)),
                         ("url", .str (pyOr (canonical_url exFullPage) "http://req1"))]),
        ("updatedAt", .str "T1"),
        ("rows", .arr [recordJson
          { playerId := none, playerName := "John Doe", playerUrl := none, club := none,
            injury := "Knee injury", since := some "2025-10-11", «until» := none }])])
      "updatedAt").bind jsonStr? = some "T1") :=
  ⟨rfl,
   (C6_updatedAt_field exFullPage "T1" "http://req1" _ rfl).2.2.1,
   (C6_updatedAt_field exFullPage "T1" "http://req1" _ rfl).2.1⟩

/-- C3 counterexample: for the concrete fetch in which the richer variant
returns a document whose only table has header cells but no
items/responsive class marker (and the original URL returns a document
with no table), the claimed acceptance criterion ("any table with header
cells") says the richer document is accepted, but `__post_init__` rejects
it and ends up raising `NotFoundError`. -/
theorem C3_counterexample :
    hasAnyHeaderTable (exFetchC (ensure_plus_variant "http://x/a")) = true ∧
    post_init exFetchC "http://x/a" = .error .notFoundError :=
  ⟨rfl, rfl⟩

/-- C3 (amended): the bootstrap attempts the richer `/plus/1` variant
first; it accepts a fetched document if and only if the document contains
a table whose class contains `items` or `responsive` AND that has a
`thead` header cell (not merely "any table with header cells"); when the
richer variant's document fails that guard and differs from the original,
it retries once with the original URL; and when both candidates fail the
guard it raises `NotFoundError` if and only if the finally-fetched
document contains no table element at all (when some table exists,
construction returns WITHOUT an accepted table). -/
theorem C3_fetch_bootstrap (fetch : String → Node) (url : String) :
    (hasGuardTable (fetch (ensure_plus_variant url)) = true →
      post_init fetch url = .ok (ensure_plus_variant url, fetch (ensure_plus_variant url))) ∧
    (ensure_plus_variant url ≠ url →
     hasGuardTable (fetch (ensure_plus_variant url)) = false →
     hasGuardTable (fetch url) = true →
      post_init fetch url = .ok (url, fetch url)) ∧
    (hasGuardTable (fetch (ensure_plus_variant url)) = false →
     hasGuardTable (fetch url) = false →
      (post_init fetch url = .error .notFoundError ↔ hasAnyTable (fetch url) = false)) := by
  by_cases hpu : ensure_plus_variant url = url
  · have hb : (ensure_plus_variant url == url) = true := by simp [hpu]
    refine ⟨?_, ?_, ?_⟩
    · intro hg
      unfold post_init
      simp only [hb, if_true]
      rw [if_pos hg]
    · intro hne
      exact absurd hpu hne
    · intro hg1 hg2
      unfold post_init
      simp only [hb, if_true]
      rw [hpu]
      rw [if_neg (by simp [hg2])]
      by_cases hat : hasAnyTable (fetch url) = true
      · rw [if_pos hat]
        constructor
        · intro hc
          simp at hc
        · intro hc
          rw [hat] at hc
          simp at hc
      · have hat2 : hasAnyTable (fetch url) = false := by simpa using hat
        rw [if_neg (by simp [hat2])]
        simp [hat2]
  · have hb : (ensure_plus_variant url == url) = false := by
      simpa using hpu
    refine ⟨?_, ?_, ?_⟩
    · intro hg
      unfold post_init
      simp only [hb, Bool.false_eq_true, if_false]
      rw [if_pos hg]
    · intro _ hg1 hg2
      unfold post_init
      simp only [hb, Bool.false_eq_true, if_false]
      rw [if_neg (by simp [hg1]), if_pos hg2]
    · intro hg1 hg2
      unfold post_init
      simp only [hb, Bool.false_eq_true, if_false]
      rw [if_neg (by simp [hg1]), if_neg (by simp [hg2])]
      by_cases hat : hasAnyTable (fetch url) = true
      · rw [if_pos hat]
        constructor
        · intro hc
          simp at hc
        · intro hc
          rw [hat] at hc
          simp at hc
      · have hat2 : hasAnyTable (fetch url) = false := by simpa using hat
        rw [if_neg (by simp [hat2])]
        simp [hat2]

/-- C3 witness: the always-good fetch satisfies the first clause's
hypothesis and is accepted on the richer variant; the counterexample fetch
satisfies the last clause's hypotheses and its failure is equivalent to
the final document having no table. -/
theorem C3_fetch_bootstrap_witness :
    post_init exFetchOk "http://x/a" =
      .ok (ensure_plus_variant "http://x/a", exFetchOk (ensure_plus_variant "http://x/a")) ∧
    (post_init exFetchC "http://x/a" = .error .notFoundError ↔
      hasAnyTable (exFetchC "http://x/a") = false) :=
  ⟨(C3_fetch_bootstrap exFetchOk "http://x/a").1 rfl,
   (C3_fetch_bootstrap exFetchC "http://x/a").2.2 rfl rfl⟩

/-! ## Lemma suite for the `_ensure_plus_variant` idempotence (C9) -/

theorem splitFirst_cons_eq (c x : Char) (xs : List Char) :
    splitFirst c (x :: xs) =
      if x == c then some ([], xs)
      else
        match splitFirst c xs with
        | some (a, b) => some (x :: a, b)
        | none => none := rfl

theorem splitFirst_structure {c : Char} :
    ∀ {l a b : List Char}, splitFirst c l = some (a, b) → l = a ++ c :: b ∧ c ∉ a := by
  intro l
  induction l with
  | nil => intro a b h; simp [splitFirst] at h
  | cons x xs ih =>
    intro a b h
    rw [splitFirst_cons_eq] at h
    by_cases hx : (x == c) = true
    · rw [if_pos hx] at h
      simp only [Option.some.injEq, Prod.mk.injEq] at h
      obtain ⟨ha, hb⟩ := h
      subst ha; subst hb
      simp only [beq_iff_eq] at hx
      subst hx
      exact ⟨rfl, by simp⟩
    · rw [if_neg hx] at h
      cases hs : splitFirst c xs with
      | none => rw [hs] at h; simp at h
      | some p =>
        obtain ⟨a2, b2⟩ := p
        rw [hs] at h
        simp only [Option.some.injEq, Prod.mk.injEq] at h
        obtain ⟨ha, hb⟩ := h
        subst hb
        obtain ⟨hx1, hx2⟩ := ih hs
        subst ha
        subst hx1
        refine ⟨rfl, ?_⟩
        simp only [List.mem_cons, not_or]
        refine ⟨?_, hx2⟩
        intro hc
        subst hc
        simp at hx

theorem splitFirst_append {c : Char} :
    ∀ {a : List Char} (b : List Char), c ∉ a → splitFirst c (a ++ c :: b) = some (a, b) := by
  intro a
  induction a with
  | nil =>
    intro b _
    show splitFirst c (c :: b) = some ([], b)
    rw [splitFirst_cons_eq]
    simp
  | cons x xs ih =>
    intro b hmem
    simp only [List.mem_cons, not_or] at hmem
    show splitFirst c (x :: (xs ++ c :: b)) = some (x :: xs, b)
    rw [splitFirst_cons_eq]
    rw [if_neg (by simp; intro h; exact hmem.1 h.symm)]
    rw [ih b hmem.2]

theorem splitFirst_none_of {c : Char} :
    ∀ {l : List Char}, c ∉ l → splitFirst c l = none := by
  intro l
  induction l with
  | nil => intro _; rfl
  | cons x xs ih =>
    intro hmem
    simp only [List.mem_cons, not_or] at hmem
    rw [splitFirst_cons_eq]
    rw [if_neg (by simp; intro h; exact hmem.1 h.symm)]
    rw [ih hmem.2]

theorem splitFirst_eq_none {c : Char} :
    ∀ {l : List Char}, splitFirst c l = none → c ∉ l := by
  intro l
  induction l with
  | nil => intro _; simp
  | cons x xs ih =>
    intro h
    rw [splitFirst_cons_eq] at h
    by_cases hx : (x == c) = true
    · rw [if_pos hx] at h; simp at h
    · rw [if_neg hx] at h
      simp only [List.mem_cons, not_or]
      refine ⟨by simp at hx; exact fun hc => hx hc.symm, ?_⟩
      apply ih
      cases hs : splitFirst c xs with
      | none => rfl
      | some p => rw [hs] at h; obtain ⟨a, b⟩ := p; simp at h

theorem splitOnChar_fst_not_mem (c : Char) (u : List Char) :
    c ∉ (splitOnChar c u).1 := by
  unfold splitOnChar
  cases hs : splitFirst c u with
  | none => exact splitFirst_eq_none hs
  | some p =>
    obtain ⟨a, b⟩ := p
    exact (splitFirst_structure hs).2

theorem splitOnChar_decomp (c : Char) (u : List Char) :
    ∃ t, u = (splitOnChar c u).1 ++ t ∧
      ((splitOnChar c u).2 = [] ∨ t = c :: (splitOnChar c u).2) := by
  unfold splitOnChar
  cases hs : splitFirst c u with
  | none => exact ⟨[], by simp⟩
  | some p =>
    obtain ⟨a, b⟩ := p
    exact ⟨c :: b, (splitFirst_structure hs).1, Or.inr rfl⟩

theorem splitOnChar_append {c : Char} {a : List Char} (b : List Char) (h : c ∉ a) :
    splitOnChar c (a ++ c :: b) = (a, b) := by
  unfold splitOnChar
  rw [splitFirst_append b h]

theorem splitOnChar_none {c : Char} {u : List Char} (h : c ∉ u) :
    splitOnChar c u = (u, []) := by
  unfold splitOnChar
  rw [splitFirst_none_of h]

theorem all_takeWhile (p : Char → Bool) :
    ∀ l : List Char, (l.takeWhile p).all p = true := by
  intro l
  induction l with
  | nil => rfl
  | cons x xs ih =>
    rw [List.takeWhile_cons]
    by_cases hx : p x = true
    · rw [if_pos hx]
      simp [hx, ih]
    · rw [if_neg hx]
      rfl

theorem takeWhile_append_stop {p : Char → Bool} {x : Char} (hx : p x = false) :
    ∀ (l : List Char) (xs : List Char), l.all p = true →
      (l ++ x :: xs).takeWhile p = l ∧ (l ++ x :: xs).dropWhile p = x :: xs := by
  intro l
  induction l with
  | nil =>
    intro xs _
    constructor
    · rw [List.nil_append, List.takeWhile_cons, if_neg (by simp [hx])]
    · rw [List.nil_append, List.dropWhile_cons, if_neg (by simp [hx])]
  | cons y ys ih =>
    intro xs hall
    simp only [List.all_cons, Bool.and_eq_true] at hall
    have h1 := ih xs hall.2
    constructor
    · rw [List.cons_append, List.takeWhile_cons, if_pos hall.1, h1.1]
    · rw [List.cons_append, List.dropWhile_cons, if_pos hall.1]
      exact h1.2

theorem dropWhile_eq_self_of_takeWhile_nil {p : Char → Bool} :
    ∀ {l : List Char}, l.takeWhile p = [] → l.dropWhile p = l := by
  intro l
  cases l with
  | nil => intro _; rfl
  | cons x xs =>
    intro h
    rw [List.takeWhile_cons] at h
    rw [List.dropWhile_cons]
    by_cases hx : p x = true
    · rw [if_pos hx] at h; simp at h
    · rw [if_neg hx]

theorem hasSub_append_right {n : List Char} :
    ∀ {b : List Char} (a : List Char), hasSub b n = true → hasSub (a ++ b) n = true := by
  intro b a
  induction a with
  | nil => intro h; simpa using h
  | cons x xs ih =>
    intro h
    have h2 := ih h
    show hasSub (x :: (xs ++ b)) n = true
    unfold hasSub
    cases hb : xs ++ b with
    | nil => rw [hb] at h2; simpa [h2] using h2
    | cons z zs =>
      rw [hb] at h2
      simp [h2]

theorem hasSub_cons {n l : List Char} (x : Char) (h : hasSub l n = true) :
    hasSub (x :: l) n = true := hasSub_append_right [x] h

theorem hasSub_of_head {n : List Char} :
    ∀ {l : List Char}, isHeadOf n l = true → hasSub l n = true := by
  intro l h
  cases l with
  | nil =>
    cases n with
    | nil => rfl
    | cons a as => simp [isHeadOf] at h
  | cons x xs =>
    unfold hasSub
    rw [h]
    rfl

theorem isHeadOf_append (n : List Char) :
    ∀ (t : List Char), isHeadOf n (n ++ t) = true := by
  induction n with
  | nil => intro t; rfl
  | cons x xs ih =>
    intro t
    show (x == x && isHeadOf xs (xs ++ t)) = true
    simp [ih t]

theorem all_false_of_mem {p : Char → Bool} {x : Char} (hx : p x = false) :
    ∀ {l : List Char}, x ∈ l → l.all p = false := by
  intro l
  induction l with
  | nil => intro h; simp at h
  | cons y ys ih =>
    intro hmem
    rcases List.mem_cons.mp hmem with h | h
    · subst h
      simp [hx]
    · simp [ih h]

theorem not_mem_of_all {p : Char → Bool} {x : Char} {l : List Char}
    (hall : l.all p = true) (hx : p x = false) : x ∉ l := by
  intro hmem
  rw [all_false_of_mem hx hmem] at hall
  cases hall

theorem schemeOk_cons (c : Char) (cs : List Char) :
    schemeOk (c :: cs) = (c.isAlpha && (c :: cs).all schemeChar) := rfl

theorem schemeOk_false_of_mem {x : Char} {l : List Char} (hx : schemeChar x = false)
    (hmem : x ∈ l) : schemeOk l = false := by
  cases l with
  | nil => simp at hmem
  | cons c cs =>
    rw [schemeOk_cons, all_false_of_mem hx hmem]
    simp

theorem pyLower_schemeChar {c : Char} (h : schemeChar c = true) :
    schemeChar (pyLower c) = true := by
  unfold pyLower
  split <;> first | decide | exact h

theorem pyLower_isAlpha {c : Char} (h : c.isAlpha = true) :
    (pyLower c).isAlpha = true := by
  unfold pyLower
  split <;> first | decide | exact h

theorem all_schemeChar_map :
    ∀ {l : List Char}, l.all schemeChar = true → (l.map pyLower).all schemeChar = true := by
  intro l
  induction l with
  | nil => intro _; rfl
  | cons x xs ih =>
    intro h
    simp only [List.all_cons, Bool.and_eq_true] at h
    simp only [List.map_cons, List.all_cons, Bool.and_eq_true]
    exact ⟨pyLower_schemeChar h.1, ih h.2⟩

theorem schemeOk_map {l : List Char} (h : schemeOk l = true) :
    schemeOk (l.map pyLower) = true := by
  cases l with
  | nil => cases h
  | cons x xs =>
    rw [schemeOk_cons] at h
    simp only [Bool.and_eq_true] at h
    rw [List.map_cons, schemeOk_cons]
    simp only [Bool.and_eq_true]
    refine ⟨pyLower_isAlpha h.1, ?_⟩
    have := all_schemeChar_map (l := x :: xs) (by simpa using h.2)
    simpa using this

theorem parseScheme_eq_some {u a b : List Char} (hs : splitFirst ':' u = some (a, b)) :
    parseScheme u = if schemeOk a = true then (a.map pyLower, b) else ([], u) := by
  unfold parseScheme
  rw [hs]

theorem parseScheme_eq_none {u : List Char} (hs : splitFirst ':' u = none) :
    parseScheme u = ([], u) := by
  unfold parseScheme
  rw [hs]

theorem parseScheme_append_ok {s : List Char} (r : List Char) (hok : schemeOk s = true)
    (hns : ':' ∉ s) : parseScheme (s ++ ':' :: r) = (s.map pyLower, r) := by
  rw [parseScheme_eq_some (splitFirst_append r hns), if_pos hok]

theorem parseScheme_head_not_alpha {x : Char} (u : List Char) (hx : x.isAlpha = false) :
    parseScheme (x :: u) = ([], x :: u) := by
  cases hs : splitFirst ':' (x :: u) with
  | none => exact parseScheme_eq_none hs
  | some p =>
    obtain ⟨a, b⟩ := p
    rw [parseScheme_eq_some hs]
    obtain ⟨heq, _⟩ := splitFirst_structure hs
    cases ha : a with
    | nil =>
      rw [if_neg]
      intro hok
      cases hok
    | cons y ys =>
      rw [ha] at heq
      rw [List.cons_append] at heq
      injection heq with h1 _
      rw [if_neg]
      rw [schemeOk_cons, ← h1, hx]
      simp

theorem parseScheme_fst_nil_snd {u : List Char} (h : (parseScheme u).1 = []) :
    (parseScheme u).2 = u := by
  cases hs : splitFirst ':' u with
  | none => rw [parseScheme_eq_none hs]
  | some p =>
    obtain ⟨a, b⟩ := p
    rw [parseScheme_eq_some hs] at h ⊢
    by_cases hok : schemeOk a = true
    · rw [if_pos hok] at h
      cases ha : a with
      | nil => rw [ha] at hok; cases hok
      | cons x xs => rw [ha] at h; simp at h
    · rw [if_neg hok]

theorem parseScheme_fst_nil_fail {u : List Char} (h : (parseScheme u).1 = []) :
    ∀ a b, splitFirst ':' u = some (a, b) → schemeOk a = false := by
  intro a b hs
  rw [parseScheme_eq_some hs] at h
  by_cases hok : schemeOk a = true
  · rw [if_pos hok] at h
    cases ha : a with
    | nil => rw [ha] at hok; cases hok
    | cons x xs => rw [ha] at h; simp at h
  · simpa using hok

theorem parseScheme_spec (u : List Char) :
    (parseScheme u).1 = [] ∨ schemeOk (parseScheme u).1 = true := by
  cases hs : splitFirst ':' u with
  | none => rw [parseScheme_eq_none hs]; left; rfl
  | some p =>
    obtain ⟨a, b⟩ := p
    rw [parseScheme_eq_some hs]
    by_cases hok : schemeOk a = true
    · rw [if_pos hok]
      right
      exact schemeOk_map hok
    · rw [if_neg hok]
      left
      rfl

theorem parseNetloc_cases (u : List Char) :
    (∃ w, u = '/' :: '/' :: w ∧
      parseNetloc u = (w.takeWhile netChar, w.dropWhile netChar)) ∨
    parseNetloc u = ([], u) := by
  rcases u with _ | ⟨x, _ | ⟨y, w⟩⟩
  · right; rfl
  · right; rfl
  · by_cases hx : x = '/'
    · by_cases hy : y = '/'
      · subst hx
        subst hy
        left
        refine ⟨w, rfl, ?_⟩
        unfold parseNetloc
        dsimp only
        rw [if_pos (by decide)]
      · right
        unfold parseNetloc
        dsimp only
        rw [if_neg (fun hcon => by rw [Bool.and_eq_true] at hcon; exact hy (by simpa using hcon.2))]
    · right
      unfold parseNetloc
      dsimp only
      rw [if_neg (fun hcon => by rw [Bool.and_eq_true] at hcon; exact hx (by simpa using hcon.1))]

theorem parseNetloc_not_slashslash {u : List Char} (h : u.take 2 ≠ ['/', '/']) :
    parseNetloc u = ([], u) := by
  rcases parseNetloc_cases u with ⟨w, hw, _⟩ | hself
  · exfalso
    apply h
    rw [hw]
    rfl
  · exact hself

theorem parseNetloc_all (u : List Char) : (parseNetloc u).1.all netChar = true := by
  rcases parseNetloc_cases u with ⟨w, hw, hres⟩ | hself
  · rw [hres]
    exact all_takeWhile netChar w
  · rw [hself]
    rfl

theorem rstrip_decomp (l : List Char) :
    ∃ ts, l = rstripSlash l ++ ts ∧ ts.all (fun c => c == '/') = true := by
  refine ⟨(l.reverse.takeWhile (fun c => c == '/')).reverse, ?_, ?_⟩
  · have h := List.takeWhile_append_dropWhile (p := fun c => c == '/') (l := l.reverse)
    have h2 := congrArg List.reverse h
    rw [List.reverse_append, List.reverse_reverse] at h2
    exact h2.symm
  · rw [List.all_reverse]
    exact all_takeWhile _ l.reverse

theorem mem_rstrip {x : Char} {l : List Char} (h : x ∈ rstripSlash l) : x ∈ l := by
  obtain ⟨ts, hts, _⟩ := rstrip_decomp l
  rw [hts]
  exact List.mem_append_left ts h

/-- The components of `urlsplit`, unfolded (definitional). -/
theorem urlsplit_eq (u : List Char) :
    urlsplit u =
      ⟨(parseScheme u).1,
       (parseNetloc (parseScheme u).2).1,
       (splitOnChar '?' (splitOnChar '#' (parseNetloc (parseScheme u).2).2).1).1,
       (splitOnChar '?' (splitOnChar '#' (parseNetloc (parseScheme u).2).2).1).2,
       (splitOnChar '#' (parseNetloc (parseScheme u).2).2).2⟩ := rfl

theorem us_path_no_qm (u : List Char) :
    '?' ∉ (urlsplit u).path ∧ '#' ∉ (urlsplit u).path := by
  rw [urlsplit_eq]
  constructor
  · exact splitOnChar_fst_not_mem '?' _
  · intro hmem
    obtain ⟨t, ht, _⟩ := splitOnChar_decomp '?' (splitOnChar '#' (parseNetloc (parseScheme u).2).2).1
    have : '#' ∈ (splitOnChar '#' (parseNetloc (parseScheme u).2).2).1 := by
      rw [ht]
      exact List.mem_append_left t hmem
    exact splitOnChar_fst_not_mem '#' _ this

theorem us_query_no_hash (u : List Char) : '#' ∉ (urlsplit u).query := by
  rw [urlsplit_eq]
  intro hmem
  obtain ⟨t, ht, hcase⟩ := splitOnChar_decomp '?' (splitOnChar '#' (parseNetloc (parseScheme u).2).2).1
  have : '#' ∈ (splitOnChar '#' (parseNetloc (parseScheme u).2).2).1 := by
    rw [ht]
    rcases hcase with hq | ht2
    · rw [hq] at hmem
      simp at hmem
    · apply List.mem_append_right
      rw [ht2]
      exact List.mem_cons_of_mem _ hmem
  exact splitOnChar_fst_not_mem '#' _ this

theorem us_netloc_all (u : List Char) : (urlsplit u).netloc.all netChar = true := by
  rw [urlsplit_eq]
  exact parseNetloc_all _

theorem us_scheme_ok (u : List Char) :
    (urlsplit u).scheme = [] ∨ schemeOk (urlsplit u).scheme = true := by
  rw [urlsplit_eq]
  exact parseScheme_spec u

/-- In the no-scheme no-netloc case, any colon-decomposition of the path
whose prefix is slash-free fails the scheme guard (this is what makes the
re-parse of the rebuilt URL scheme-free again). -/
theorem us_hard (u : List Char) (hs : (urlsplit u).scheme = [])
    (hn : (urlsplit u).netloc = []) :
    ∀ pre v2, (urlsplit u).path = pre ++ ':' :: v2 → ':' ∉ pre → '/' ∉ pre →
      schemeOk pre = false := by
  intro pre v2 hdec hc hsl
  cases hpre : pre with
  | nil => rfl
  | cons a as =>
    rw [← hpre]
    have hqm := us_path_no_qm u
    rw [hdec] at hqm
    have hs1 : (parseScheme u).1 = [] := hs
    have hr1 : (parseScheme u).2 = u := parseScheme_fst_nil_snd hs1
    have hn1 : (parseNetloc u).1 = [] := by
      have hx := hn
      rw [urlsplit_eq] at hx
      simp only at hx
      rw [hr1] at hx
      exact hx
    have hdec1 : (splitOnChar '?' (splitOnChar '#' (parseNetloc u).2).1).1 =
        pre ++ ':' :: v2 := by
      have hx := hdec
      rw [urlsplit_eq] at hx
      simp only at hx
      rw [hr1] at hx
      exact hx
    have hppref : ∃ t, (parseNetloc u).2 =
        (splitOnChar '?' (splitOnChar '#' (parseNetloc u).2).1).1 ++ t := by
      obtain ⟨t2, ht2, _⟩ := splitOnChar_decomp '#' (parseNetloc u).2
      obtain ⟨t1, ht1, _⟩ := splitOnChar_decomp '?' (splitOnChar '#' (parseNetloc u).2).1
      refine ⟨t1 ++ t2, ?_⟩
      conv_lhs => rw [ht2]
      conv_lhs => rw [ht1]
      rw [List.append_assoc]
    obtain ⟨t, ht⟩ := hppref
    rw [hdec1] at ht
    rcases parseNetloc_cases u with ⟨w, hw, hres⟩ | hself
    · -- u starts with //, empty netloc: the remainder begins with a delimiter
      have hn2 : w.takeWhile netChar = [] := by
        rw [hres] at hn1
        exact hn1
      have hr2w : (parseNetloc u).2 = w := by
        rw [hres]
        exact dropWhile_eq_self_of_takeWhile_nil hn2
      rw [hr2w] at ht
      cases hwc : w with
      | nil =>
        exfalso
        rw [hwc, hpre] at ht
        simp at ht
      | cons z zs =>
        have hz : netChar z = false := by
          rw [hwc, List.takeWhile_cons] at hn2
          by_cases hzz : netChar z = true
          · rw [if_pos hzz] at hn2
            simp at hn2
          · simpa using hzz
        exfalso
        rw [hwc, hpre] at ht
        rw [List.cons_append, List.cons_append] at ht
        injection ht with h1 _
        unfold netChar at hz
        simp only [Bool.not_eq_false', Bool.or_eq_true, beq_iff_eq] at hz
        rcases hz with (hz | hz) | hz
        · apply hsl
          rw [hpre, ← h1, hz]
          simp
        · apply hqm.1
          apply List.mem_append_left
          rw [hpre, ← h1, hz]
          simp
        · apply hqm.2
          apply List.mem_append_left
          rw [hpre, ← h1, hz]
          simp
    · -- no netloc consumed: the path prefixes u, so this is the first colon
      -- of u itself, which failed the scheme guard
      rw [hself] at ht
      simp only at ht
      have hsf : splitFirst ':' u = some (pre, v2 ++ t) := by
        rw [ht, List.append_assoc]
        exact splitFirst_append (v2 ++ t) hc
      exact parseScheme_fst_nil_fail hs1 pre (v2 ++ t) hsf

theorem urlsplit_path_eq (u : List Char) :
    (urlsplit u).path =
      (splitOnChar '?' (splitOnChar '#' (parseNetloc (parseScheme u).2).2).1).1 := rfl

theorem schemeOk_all {l : List Char} (h : schemeOk l = true) :
    l.all schemeChar = true := by
  cases l with
  | nil => cases h
  | cons x xs =>
    rw [schemeOk_cons, Bool.and_eq_true] at h
    exact h.2

/-- A "tail" is what `urlunsplit` may append after the path: nothing, a
query, a fragment, or both. -/
theorem path_of_tail (p2 tail : List Char) (hpq : '?' ∉ p2) (hpf : '#' ∉ p2)
    (htail : tail = [] ∨ (∃ q2, tail = '?' :: q2 ∧ '#' ∉ q2) ∨
      (∃ f2, tail = '#' :: f2) ∨
      (∃ q2 f2, tail = '?' :: (q2 ++ '#' :: f2) ∧ '#' ∉ q2)) :
    (splitOnChar '?' (splitOnChar '#' (p2 ++ tail)).1).1 = p2 := by
  rcases htail with rfl | ⟨q2, rfl, hq2⟩ | ⟨f2, rfl⟩ | ⟨q2, f2, rfl, hq2⟩
  · rw [List.append_nil, splitOnChar_none hpf]
    have h2 := splitOnChar_none hpq
    rw [h2]
  · have hnh : '#' ∉ p2 ++ '?' :: q2 := by
      intro hm
      rcases List.mem_append.mp hm with hm | hm
      · exact hpf hm
      · rcases List.mem_cons.mp hm with hm | hm
        · cases hm
        · exact hq2 hm
    rw [splitOnChar_none hnh, splitOnChar_append q2 hpq]
  · rw [splitOnChar_append f2 hpf]
    have h2 := splitOnChar_none hpq
    rw [h2]
  · have hassoc : p2 ++ '?' :: (q2 ++ '#' :: f2) = (p2 ++ '?' :: q2) ++ '#' :: f2 := by
      rw [List.append_assoc]
      rfl
    rw [hassoc]
    have hnh : '#' ∉ p2 ++ '?' :: q2 := by
      intro hm
      rcases List.mem_append.mp hm with hm | hm
      · exact hpf hm
      · rcases List.mem_cons.mp hm with hm | hm
        · cases hm
        · exact hq2 hm
    rw [splitOnChar_append f2 hnh, splitOnChar_append q2 hpq]

theorem parseNetloc_b1 (n p2 : List Char) (hn : n.all netChar = true)
    (hhead : ∃ t2, p2 = '/' :: t2) :
    parseNetloc ('/' :: '/' :: (n ++ p2)) = (n, p2) := by
  obtain ⟨t2, rfl⟩ := hhead
  have h := takeWhile_append_stop (p := netChar) (x := '/') (by decide) n t2 hn
  unfold parseNetloc
  dsimp only
  rw [if_pos (by decide), h.1, h.2]

/-- The last two steps of `urlunsplit` (query and fragment attachment), as
one appended tail. -/
theorem urlunsplit_tail_form (u2 q f : List Char) :
    (if f ≠ [] then (if q ≠ [] then u2 ++ '?' :: q else u2) ++ '#' :: f
     else (if q ≠ [] then u2 ++ '?' :: q else u2)) =
    u2 ++ ((if q = [] then [] else '?' :: q) ++ (if f = [] then [] else '#' :: f)) := by
  by_cases hq : q = [] <;> by_cases hf : f = [] <;> simp [hq, hf]

theorem append_cons_assoc (s Z T : List Char) (c : Char) :
    (s ++ c :: Z) ++ T = s ++ c :: (Z ++ T) := by
  rw [List.append_assoc]
  rfl

/-- The heart of C9: re-splitting the URL `_ensure_plus_variant` rebuilds
yields a path that still contains `/plus/`.  The hypotheses are the
invariants `urlsplit` guarantees about the components of any URL. -/
theorem rebuilt_keeps_plus (s n p q f : List Char)
    (hn : n.all netChar = true)
    (hp1 : '?' ∉ p) (hp2 : '#' ∉ p) (hq : '#' ∉ q)
    (hsch : schemeOk s = true ∨
      (s = [] ∧ (n = [] → ∀ pre v2, p = pre ++ ':' :: v2 → ':' ∉ pre → '/' ∉ pre →
        schemeOk pre = false))) :
    hasSub (urlsplit (urlunsplit
      ⟨s, n, rstripSlash p ++ "/plus/1".data, q, f⟩)).path "/plus/".data = true := by
  have hplusp : hasSub (rstripSlash p ++ "/plus/1".data) "/plus/".data = true :=
    hasSub_append_right _ (by decide)
  have hp'q : '?' ∉ rstripSlash p ++ "/plus/1".data := by
    intro hm
    rcases List.mem_append.mp hm with hm | hm
    · exact hp1 (mem_rstrip hm)
    · revert hm
      decide
  have hp'h : '#' ∉ rstripSlash p ++ "/plus/1".data := by
    intro hm
    rcases List.mem_append.mp hm with hm | hm
    · exact hp2 (mem_rstrip hm)
    · revert hm
      decide
  obtain ⟨x, y, rest, hxy⟩ :
      ∃ x y rest, rstripSlash p ++ "/plus/1".data = x :: y :: rest := by
    rcases hr : rstripSlash p with _ | ⟨c1, cs⟩
    · exact ⟨'/', 'p', ['l', 'u', 's', '/', '1'], by rfl⟩
    · cases cs with
      | nil => exact ⟨c1, '/', ['p', 'l', 'u', 's', '/', '1'], by rfl⟩
      | cons c2 cs2 => exact ⟨c1, c2, cs2 ++ "/plus/1".data, by rfl⟩
  have htail : ((if q = [] then [] else '?' :: q) ++ (if f = [] then [] else '#' :: f)) = []
      ∨ (∃ q2, ((if q = [] then [] else '?' :: q) ++ (if f = [] then [] else '#' :: f)) =
          '?' :: q2 ∧ '#' ∉ q2)
      ∨ (∃ f2, ((if q = [] then [] else '?' :: q) ++ (if f = [] then [] else '#' :: f)) =
          '#' :: f2)
      ∨ (∃ q2 f2, ((if q = [] then [] else '?' :: q) ++ (if f = [] then [] else '#' :: f)) =
          '?' :: (q2 ++ '#' :: f2) ∧ '#' ∉ q2) := by
    by_cases hqe : q = []
    · by_cases hfe : f = []
      · left
        rw [if_pos hqe, if_pos hfe]
        rfl
      · right; right; left
        exact ⟨f, by rw [if_pos hqe, if_neg hfe]; rfl⟩
    · by_cases hfe : f = []
      · right; left
        refine ⟨q, ?_, hq⟩
        rw [if_neg hqe, if_pos hfe, List.append_nil]
      · right; right; right
        refine ⟨q, f, ?_, hq⟩
        rw [if_neg hqe, if_neg hfe]
        rfl
  by_cases hbB : n ≠ [] ∨ (rstripSlash p ++ "/plus/1".data).take 2 = ['/', '/']
  · -- the // branch
    obtain ⟨p2, hp2eq, hp2head, hp2sub, hp2q, hp2h⟩ :
        ∃ p2, (match rstripSlash p ++ "/plus/1".data with
               | c :: _ => if c == '/' then rstripSlash p ++ "/plus/1".data
                           else '/' :: (rstripSlash p ++ "/plus/1".data)
               | [] => rstripSlash p ++ "/plus/1".data) = p2 ∧
          (∃ t2, p2 = '/' :: t2) ∧ hasSub p2 "/plus/".data = true ∧
          '?' ∉ p2 ∧ '#' ∉ p2 := by
      by_cases hxs : x = '/'
      · refine ⟨rstripSlash p ++ "/plus/1".data, ?_, ⟨y :: rest, by rw [hxy, hxs]⟩,
          hplusp, hp'q, hp'h⟩
        rw [hxy]
        simp [hxs]
      · refine ⟨'/' :: (rstripSlash p ++ "/plus/1".data), ?_,
          ⟨rstripSlash p ++ "/plus/1".data, rfl⟩, hasSub_cons '/' hplusp, ?_, ?_⟩
        · rw [hxy]
          simp only []
          rw [if_neg (by simpa using hxs)]
        · intro hm
          rcases List.mem_cons.mp hm with hm | hm
          · cases hm
          · exact hp'q hm
        · intro hm
          rcases List.mem_cons.mp hm with hm | hm
          · cases hm
          · exact hp'h hm
    have hcval : urlunsplit ⟨s, n, rstripSlash p ++ "/plus/1".data, q, f⟩ =
        (if s ≠ [] then s ++ ':' :: ('/' :: '/' :: (n ++ p2))
         else '/' :: '/' :: (n ++ p2)) ++
          ((if q = [] then [] else '?' :: q) ++ (if f = [] then [] else '#' :: f)) := by
      unfold urlunsplit
      dsimp only
      rw [if_pos hbB, hp2eq, urlunsplit_tail_form]
    rw [hcval]
    by_cases hse : s = []
    · rw [if_neg (by simpa using hse)]
      rw [urlsplit_path_eq]
      have hps : parseScheme ('/' :: '/' :: (n ++ p2) ++
          ((if q = [] then [] else '?' :: q) ++ (if f = [] then [] else '#' :: f))) =
          ([], '/' :: '/' :: (n ++ p2) ++
            ((if q = [] then [] else '?' :: q) ++ (if f = [] then [] else '#' :: f))) :=
        parseScheme_head_not_alpha _ (by decide)
      rw [hps]
      have hassoc : '/' :: '/' :: (n ++ p2) ++
          ((if q = [] then [] else '?' :: q) ++ (if f = [] then [] else '#' :: f)) =
          '/' :: '/' :: (n ++ (p2 ++
            ((if q = [] then [] else '?' :: q) ++ (if f = [] then [] else '#' :: f)))) := by
        rw [List.cons_append, List.cons_append, List.append_assoc]
      rw [hassoc]
      have hnl := parseNetloc_b1 n
        (p2 ++ ((if q = [] then [] else '?' :: q) ++ (if f = [] then [] else '#' :: f)))
        hn (by
          obtain ⟨t2, ht2⟩ := hp2head
          exact ⟨t2 ++ ((if q = [] then [] else '?' :: q) ++
            (if f = [] then [] else '#' :: f)), by rw [ht2]; rfl⟩)
      rw [hnl]
      dsimp only
      rw [path_of_tail p2 _ hp2q hp2h htail]
      exact hp2sub
    · rw [if_pos (by simpa using hse)]
      have hok : schemeOk s = true := by
        rcases hsch with hok | ⟨hnil, _⟩
        · exact hok
        · exact absurd hnil hse
      have hns : ':' ∉ s := not_mem_of_all (schemeOk_all hok) (by decide)
      rw [append_cons_assoc]
      rw [urlsplit_path_eq]
      rw [parseScheme_append_ok _ hok hns]
      have hassoc : '/' :: '/' :: (n ++ p2) ++
          ((if q = [] then [] else '?' :: q) ++ (if f = [] then [] else '#' :: f)) =
          '/' :: '/' :: (n ++ (p2 ++
            ((if q = [] then [] else '?' :: q) ++ (if f = [] then [] else '#' :: f)))) := by
        rw [List.cons_append, List.cons_append, List.append_assoc]
      dsimp only
      rw [hassoc]
      have hnl := parseNetloc_b1 n
        (p2 ++ ((if q = [] then [] else '?' :: q) ++ (if f = [] then [] else '#' :: f)))
        hn (by
          obtain ⟨t2, ht2⟩ := hp2head
          exact ⟨t2 ++ ((if q = [] then [] else '?' :: q) ++
            (if f = [] then [] else '#' :: f)), by rw [ht2]; rfl⟩)
      rw [hnl]
      dsimp only
      rw [path_of_tail p2 _ hp2q hp2h htail]
      exact hp2sub
  · -- no netloc and the path does not begin with //
    have hnE : n = [] := by
      by_contra hcon
      exact hbB (Or.inl hcon)
    have htk : (rstripSlash p ++ "/plus/1".data).take 2 ≠ ['/', '/'] :=
      fun hcon => hbB (Or.inr hcon)
    have hcval : urlunsplit ⟨s, n, rstripSlash p ++ "/plus/1".data, q, f⟩ =
        (if s ≠ [] then s ++ ':' :: (rstripSlash p ++ "/plus/1".data)
         else rstripSlash p ++ "/plus/1".data) ++
          ((if q = [] then [] else '?' :: q) ++ (if f = [] then [] else '#' :: f)) := by
      unfold urlunsplit
      dsimp only
      rw [if_neg hbB, urlunsplit_tail_form]
    rw [hcval]
    have hslash_p' : '/' ∈ rstripSlash p ++ "/plus/1".data :=
      List.mem_append_right _ (by decide)
    have htk2 : ((rstripSlash p ++ "/plus/1".data) ++
        ((if q = [] then [] else '?' :: q) ++ (if f = [] then [] else '#' :: f))).take 2 ≠
        ['/', '/'] := by
      rw [hxy]
      rw [List.cons_append, List.cons_append]
      intro hcontra
      apply htk
      rw [hxy]
      have h1 : (x :: y :: (rest ++
          ((if q = [] then [] else '?' :: q) ++ (if f = [] then [] else '#' :: f)))).take 2 =
          [x, y] := rfl
      rw [h1] at hcontra
      exact hcontra
    by_cases hse : s = []
    · rw [if_neg (by simpa using hse)]
      rw [urlsplit_path_eq]
      have hhard : ∀ pre v2, p = pre ++ ':' :: v2 → ':' ∉ pre → '/' ∉ pre →
          schemeOk pre = false := by
        rcases hsch with hok | ⟨_, hh⟩
        · rw [hse] at hok
          cases hok
        · exact hh hnE
      have hps : parseScheme ((rstripSlash p ++ "/plus/1".data) ++
          ((if q = [] then [] else '?' :: q) ++ (if f = [] then [] else '#' :: f))) =
          ([], (rstripSlash p ++ "/plus/1".data) ++
            ((if q = [] then [] else '?' :: q) ++ (if f = [] then [] else '#' :: f))) := by
        cases hsf : splitFirst ':' ((rstripSlash p ++ "/plus/1".data) ++
            ((if q = [] then [] else '?' :: q) ++ (if f = [] then [] else '#' :: f))) with
        | none => exact parseScheme_eq_none hsf
        | some pr =>
          obtain ⟨pre, post⟩ := pr
          rw [parseScheme_eq_some hsf]
          rw [if_neg]
          intro hok
          obtain ⟨hceq, hcnot⟩ := splitFirst_structure hsf
          by_cases hslp : '/' ∈ pre
          · rw [schemeOk_false_of_mem (by decide) hslp] at hok
            cases hok
          · rcases List.append_eq_append_iff.mp hceq with ⟨a2, hfst, hsnd⟩ | ⟨k, hfst, hsnd⟩
            · exact hslp (hfst ▸ List.mem_append_left a2 hslash_p')
            · cases hk : k with
              | nil =>
                rw [hk] at hfst
                rw [List.append_nil] at hfst
                exact hslp (hfst ▸ hslash_p')
              | cons k0 ks =>
                rw [hk] at hsnd
                rw [List.cons_append] at hsnd
                injection hsnd with hk0 _
                rw [hk, ← hk0] at hfst
                -- hfst : rstripSlash p ++ "/plus/1".data = pre ++ ':' :: ks
                rcases List.append_eq_append_iff.mp hfst with
                  ⟨a2, hpre2, hd2⟩ | ⟨k2, hrs, hk2⟩
                · have hcolon : ':' ∈ "/plus/1".data := by
                    rw [hd2]
                    exact List.mem_append_right a2 (by simp)
                  revert hcolon
                  decide
                · cases hk2c : k2 with
                  | nil =>
                    rw [hk2c, List.nil_append] at hk2
                    have hcolon : ':' ∈ "/plus/1".data := by
                      rw [← hk2]
                      simp
                    revert hcolon
                    decide
                  | cons m0 ms =>
                    rw [hk2c] at hk2
                    rw [List.cons_append] at hk2
                    injection hk2 with hm0 hms
                    rw [hk2c, ← hm0] at hrs
                    obtain ⟨ts, hts, _⟩ := rstrip_decomp p
                    have hpdec : p = pre ++ ':' :: (ms ++ ts) := by
                      rw [hts, hrs, List.append_assoc]
                      rfl
                    rw [hhard pre (ms ++ ts) hpdec hcnot hslp] at hok
                    cases hok
      rw [hps]
      rw [parseNetloc_not_slashslash htk2]
      rw [path_of_tail _ _ hp'q hp'h htail]
      exact hplusp
    · rw [if_pos (by simpa using hse)]
      have hok : schemeOk s = true := by
        rcases hsch with hok | ⟨hnil, _⟩
        · exact hok
        · exact absurd hnil hse
      have hns : ':' ∉ s := not_mem_of_all (schemeOk_all hok) (by decide)
      rw [append_cons_assoc]
      rw [urlsplit_path_eq]
      rw [parseScheme_append_ok _ hok hns]
      dsimp only
      rw [parseNetloc_not_slashslash htk2]
      rw [path_of_tail _ _ hp'q hp'h htail]
      exact hplusp

/-- C9: `_ensure_plus_variant` is idempotent: for every URL string u,
applying it twice equals applying it once — the derived URL, when split
again, has a path containing `/plus/`, so the second application returns
its input unchanged. -/
theorem C9_ensure_plus_variant_idempotent (u : String) :
    ensure_plus_variant (ensure_plus_variant u) = ensure_plus_variant u := by
  have hlist : ∀ l : List Char, ensurePlusL (ensurePlusL l) = ensurePlusL l := by
    intro l
    by_cases hcond : (hasSub (urlsplit l).path "/plus/".data ||
        endsWithL (urlsplit l).path "/plus/1".data) = true
    · have h1 : ensurePlusL l = l := by
        unfold ensurePlusL
        dsimp only
        rw [if_pos hcond]
      rw [h1, h1]
    · have h1 : ensurePlusL l = urlunsplit ⟨(urlsplit l).scheme, (urlsplit l).netloc,
          rstripSlash (urlsplit l).path ++ "/plus/1".data, (urlsplit l).query,
          (urlsplit l).fragment⟩ := by
        unfold ensurePlusL
        dsimp only
        rw [if_neg hcond]
      rw [h1]
      have hkeep : hasSub (urlsplit (urlunsplit ⟨(urlsplit l).scheme, (urlsplit l).netloc,
          rstripSlash (urlsplit l).path ++ "/plus/1".data, (urlsplit l).query,
          (urlsplit l).fragment⟩)).path "/plus/".data = true := by
        apply rebuilt_keeps_plus
        · exact us_netloc_all l
        · exact (us_path_no_qm l).1
        · exact (us_path_no_qm l).2
        · exact us_query_no_hash l
        · rcases us_scheme_ok l with h | h
          · right
            exact ⟨h, fun hnE => us_hard l h hnE⟩
          · left
            exact h
      unfold ensurePlusL
      dsimp only
      rw [if_pos (by simp [hkeep])]
  unfold ensure_plus_variant
  have hd : ∀ l2 : List Char, (List.asString l2).data = l2 := fun _ => rfl
  rw [hd, hlist]

end TM
